import Mathlib

/-!
# Verification of the backup lifecycle subsystem of `financial-review-dashboard`

Shallow embedding of `src/src-tauri/src/main.rs`: the document codec
(`load_data_file` and the serde codec for `AppData`), the snapshot naming
scheme and `create_backup`, the backup store (`export_backup_list`,
`restore_backup`, `delete_backup`), retention pruning
(`cleanup_old_backups`) and the path gateway (`validate_file_path`).

The filesystem is modelled explicitly: file contents are an association
list from paths to strings, directory listings are lists of entries
carrying the observations the Rust code makes of them (name, creation
time, size, and whether `metadata()` / `created()` / `remove_file`
succeed).  Machine integers (`u32`, `u64`) are modelled as `Nat` with
explicit range conditions where they matter; the `f64` field `auc` is
modelled by the exact rational a JSON numeral denotes.
-/

namespace FRD

/-! ## JSON data model

`serde_json` passes every document through this tree (its `Value` type).
Numbers are modelled by the exact rational value of the JSON numeral. -/

inductive Json where
  | null : Json
  | bool : Bool → Json
  | num : Rat → Json
  | str : String → Json
  | arr : List Json → Json
  | obj : List (String × Json) → Json

/-- The opening-brace character `'\x7b'`. -/
def lbrace : Char := Char.ofNat 123

/-- The closing-brace character `'\x7d'`. -/
def rbrace : Char := Char.ofNat 125

/-! ## The persisted document (`AppData` and friends, main.rs lines 12-63) -/

structure Person where
  name : String
  dob : String
deriving DecidableEq, Repr

structure Household where
  id : Nat                          -- `u32` in the source
  household_name : String
  persons : List Person
  next_review_due : String
  review_type : String              -- "Required" or "Periodic"
  auc : Rat                         -- `f64` in the source
  segment : String                  -- "Black", "Green", "Yellow", "Red"
  last_review_date : Option String
  review_status : String            -- "Scheduled", "Completed", "Overdue"
  priority_flag : String
  assigned_month : Option String
  created : String
  updated : String
deriving DecidableEq, Repr

structure AppSettings where
  last_file_path : Option String
  theme : String                    -- "light" or "dark"
  auto_backup : Bool
  backup_count : Nat                -- `u32` in the source
deriving DecidableEq, Repr

structure AppData where
  households : List Household
  settings : AppSettings
  version : String
deriving DecidableEq, Repr

/-- `impl Default for AppData` (main.rs lines 50-63). -/
def AppData.default : AppData :=
  { households := []
    settings :=
      { last_file_path := none
        theme := "light"
        auto_backup := true
        backup_count := 10 }
    version := "1.0.0" }

/-! ## Serialization (the derived `Serialize` impls)

serde's derived serializer emits one object member per field, in
declaration order; `Option<String>` fields become `null` when `None`. -/

def optStrJson : Option String → Json
  | none => Json.null
  | some s => Json.str s

def Person.toJson (p : Person) : Json :=
  Json.obj [("name", Json.str p.name), ("dob", Json.str p.dob)]

def Household.toJson (h : Household) : Json :=
  Json.obj
    [ ("id", Json.num h.id)
    , ("household_name", Json.str h.household_name)
    , ("persons", Json.arr (h.persons.map Person.toJson))
    , ("next_review_due", Json.str h.next_review_due)
    , ("review_type", Json.str h.review_type)
    , ("auc", Json.num h.auc)
    , ("segment", Json.str h.segment)
    , ("last_review_date", optStrJson h.last_review_date)
    , ("review_status", Json.str h.review_status)
    , ("priority_flag", Json.str h.priority_flag)
    , ("assigned_month", optStrJson h.assigned_month)
    , ("created", Json.str h.created)
    , ("updated", Json.str h.updated) ]

def AppSettings.toJson (s : AppSettings) : Json :=
  Json.obj
    [ ("last_file_path", optStrJson s.last_file_path)
    , ("theme", Json.str s.theme)
    , ("auto_backup", Json.bool s.auto_backup)
    , ("backup_count", Json.num s.backup_count) ]

def AppData.toJson (d : AppData) : Json :=
  Json.obj
    [ ("households", Json.arr (d.households.map Household.toJson))
    , ("settings", d.settings.toJson)
    , ("version", Json.str d.version) ]

/-! ## Deserialization (the derived `Deserialize` impls)

Field access is by name (first occurrence); a `u32` field accepts exactly
the integral numerals in `[0, 2^32)`; an `f64` field accepts any numeral;
a missing or `null` `Option<String>` field is `None`. -/

def Json.lookup (name : String) : Json → Option Json
  | Json.obj kvs => kvs.lookup name
  | _ => none

def Json.asStr : Json → Option String
  | Json.str s => some s
  | _ => none

def Json.asRat : Json → Option Rat
  | Json.num q => some q
  | _ => none

def Json.asU32 : Json → Option Nat
  | Json.num q =>
      if q.den = 1 ∧ 0 ≤ q.num ∧ q.num.toNat < 4294967296 then some q.num.toNat else none
  | _ => none

def Json.asBool : Json → Option Bool
  | Json.bool b => some b
  | _ => none

def Json.asOptStr : Json → Option (Option String)
  | Json.null => some none
  | Json.str s => some (some s)
  | _ => none

/-- An `Option<String>` field: absent means `None`, otherwise it must be
`null` or a string. -/
def Json.optField (j : Json) (name : String) : Option (Option String) :=
  match j.lookup name with
  | none => some none
  | some v => v.asOptStr

def Person.fromJson (j : Json) : Option Person := do
  let name ← (j.lookup "name").bind Json.asStr
  let dob ← (j.lookup "dob").bind Json.asStr
  pure { name := name, dob := dob }

def Household.fromJson (j : Json) : Option Household := do
  let id ← (j.lookup "id").bind Json.asU32
  let household_name ← (j.lookup "household_name").bind Json.asStr
  let personsJson ← (j.lookup "persons").bind fun v =>
    match v with
    | Json.arr l => some l
    | _ => none
  let persons ← personsJson.mapM Person.fromJson
  let next_review_due ← (j.lookup "next_review_due").bind Json.asStr
  let review_type ← (j.lookup "review_type").bind Json.asStr
  let auc ← (j.lookup "auc").bind Json.asRat
  let segment ← (j.lookup "segment").bind Json.asStr
  let last_review_date ← j.optField "last_review_date"
  let review_status ← (j.lookup "review_status").bind Json.asStr
  let priority_flag ← (j.lookup "priority_flag").bind Json.asStr
  let assigned_month ← j.optField "assigned_month"
  let created ← (j.lookup "created").bind Json.asStr
  let updated ← (j.lookup "updated").bind Json.asStr
  pure
    { id := id, household_name := household_name, persons := persons
      next_review_due := next_review_due, review_type := review_type
      auc := auc, segment := segment, last_review_date := last_review_date
      review_status := review_status, priority_flag := priority_flag
      assigned_month := assigned_month, created := created, updated := updated }

def AppSettings.fromJson (j : Json) : Option AppSettings := do
  let last_file_path ← j.optField "last_file_path"
  let theme ← (j.lookup "theme").bind Json.asStr
  let auto_backup ← (j.lookup "auto_backup").bind Json.asBool
  let backup_count ← (j.lookup "backup_count").bind Json.asU32
  pure
    { last_file_path := last_file_path, theme := theme
      auto_backup := auto_backup, backup_count := backup_count }

def AppData.fromJson (j : Json) : Option AppData := do
  let householdsJson ← (j.lookup "households").bind fun v =>
    match v with
    | Json.arr l => some l
    | _ => none
  let households ← householdsJson.mapM Household.fromJson
  let settingsJson ← j.lookup "settings"
  let settings ← AppSettings.fromJson settingsJson
  let version ← (j.lookup "version").bind Json.asStr
  pure { households := households, settings := settings, version := version }

/-! ## JSON text parsing (`serde_json::from_str`)

A fuel-indexed recursive-descent parser over the character list of the
input; the fuel is sized from the input length, so running out models
only impossible inputs.  Errors carry a short message, standing for the
underlying parser message serde reports. -/

def isWsChar (c : Char) : Bool := c = ' ' || c = '\t' || c = '\n' || c = '\r'

def skipWs : List Char → List Char
  | [] => []
  | c :: cs => if isWsChar c then skipWs cs else c :: cs

def isDigitChar (c : Char) : Bool := '0' ≤ c && c ≤ '9'

def takeDigits : List Char → List Char × List Char
  | [] => ([], [])
  | c :: cs =>
    if isDigitChar c then
      let (ds, r) := takeDigits cs
      (c :: ds, r)
    else ([], c :: cs)

def natOfDigits (ds : List Char) : Nat :=
  ds.foldl (fun n c => n * 10 + (c.toNat - 48)) 0

def tenPow (k : Nat) : Rat := ((10 ^ k : Nat) : Rat)

def applyExp (q : Rat) (e : Int) : Rat :=
  if 0 ≤ e then q * tenPow e.toNat else q / tenPow (-e).toNat

def parseFrac : List Char → Except String (List Char × List Char)
  | '.' :: t =>
      let (ds, r) := takeDigits t
      if ds.isEmpty then Except.error "expected digits after decimal point"
      else Except.ok (ds, r)
  | cs => Except.ok ([], cs)

def parseExpTail (t : List Char) : Except String (Int × List Char) :=
  let (sgn, t1) :=
    match t with
    | '+' :: r => ((1 : Int), r)
    | '-' :: r => ((-1 : Int), r)
    | _ => ((1 : Int), t)
  let (ds, r) := takeDigits t1
  if ds.isEmpty then Except.error "expected digits in exponent"
  else Except.ok (sgn * natOfDigits ds, r)

def parseExp : List Char → Except String (Int × List Char)
  | 'e' :: t => parseExpTail t
  | 'E' :: t => parseExpTail t
  | cs => Except.ok (0, cs)

def parseNumberTail (neg : Bool) (cs1 : List Char) : Except String (Rat × List Char) :=
  let (ints, cs2) := takeDigits cs1
  if ints.isEmpty then Except.error "expected digits" else
  match parseFrac cs2 with
  | Except.error e => Except.error e
  | Except.ok (fds, cs3) =>
    match parseExp cs3 with
    | Except.error e => Except.error e
    | Except.ok (e, cs4) =>
      let mag : Rat := (natOfDigits ints : Rat) + (natOfDigits fds : Rat) / tenPow fds.length
      Except.ok (applyExp (if neg then -mag else mag) e, cs4)

def parseNumber (cs : List Char) : Except String (Rat × List Char) :=
  match cs with
  | '-' :: t => parseNumberTail true t
  | _ => parseNumberTail false cs

def hexVal (c : Char) : Option Nat :=
  if isDigitChar c then some (c.toNat - 48)
  else if 'a' ≤ c && c ≤ 'f' then some (c.toNat - 87)
  else if 'A' ≤ c && c ≤ 'F' then some (c.toNat - 55)
  else none

def hex4 : List Char → Option (Nat × List Char)
  | a :: b :: c :: d :: r => do
    let x ← hexVal a
    let y ← hexVal b
    let z ← hexVal c
    let w ← hexVal d
    pure (((x * 16 + y) * 16 + z) * 16 + w, r)
  | _ => none

def escTable (e : Char) : Option Char :=
  if e = '"' then some '"'
  else if e = '\\' then some '\\'
  else if e = '/' then some '/'
  else if e = 'b' then some (Char.ofNat 8)
  else if e = 'f' then some (Char.ofNat 12)
  else if e = 'n' then some (Char.ofNat 10)
  else if e = 'r' then some (Char.ofNat 13)
  else if e = 't' then some (Char.ofNat 9)
  else none

/-- Body of a JSON string, after the opening quote; returns the decoded
characters and the input after the closing quote. -/
def parseStringBody : Nat → List Char → Except String (List Char × List Char)
  | 0, _ => Except.error "recursion limit exceeded"
  | _, [] => Except.error "unterminated string"
  | fuel + 1, c :: cs =>
    if c = '"' then Except.ok ([], cs)
    else if c = '\\' then
      match cs with
      | [] => Except.error "unterminated string"
      | e :: cs2 =>
        match escTable e with
        | some ch =>
          match parseStringBody fuel cs2 with
          | Except.ok (s, r) => Except.ok (ch :: s, r)
          | Except.error err => Except.error err
        | none =>
          if e = 'u' then
            match hex4 cs2 with
            | none => Except.error "invalid unicode escape"
            | some (n, cs3) =>
              if 55296 ≤ n ∧ n < 56320 then
                match cs3 with
                | '\\' :: 'u' :: cs4 =>
                  match hex4 cs4 with
                  | some (m, cs5) =>
                    if 56320 ≤ m ∧ m < 57344 then
                      match parseStringBody fuel cs5 with
                      | Except.ok (s, r) =>
                        Except.ok (Char.ofNat (65536 + (n - 55296) * 1024 + (m - 56320)) :: s, r)
                      | Except.error err => Except.error err
                    else Except.error "unexpected surrogate pair"
                  | none => Except.error "invalid unicode escape"
                | _ => Except.error "lone leading surrogate"
              else if 56320 ≤ n ∧ n < 57344 then Except.error "lone trailing surrogate"
              else
                match parseStringBody fuel cs3 with
                | Except.ok (s, r) => Except.ok (Char.ofNat n :: s, r)
                | Except.error err => Except.error err
          else Except.error "invalid escape"
    else if c.toNat < 32 then Except.error "control character in string"
    else
      match parseStringBody fuel cs with
      | Except.ok (s, r) => Except.ok (c :: s, r)
      | Except.error err => Except.error err

def expectLit (lit : List Char) (cs : List Char) : Option (List Char) :=
  if lit.isPrefixOf cs then some (cs.drop lit.length) else none

mutual

def parseValue : Nat → List Char → Except String (Json × List Char)
  | 0, _ => Except.error "recursion limit exceeded"
  | fuel + 1, cs =>
    match skipWs cs with
    | [] => Except.error "unexpected end of input"
    | c :: cs1 =>
      if c = 'n' then
        match expectLit ['u', 'l', 'l'] cs1 with
        | some r => Except.ok (Json.null, r)
        | none => Except.error "expected value"
      else if c = 't' then
        match expectLit ['r', 'u', 'e'] cs1 with
        | some r => Except.ok (Json.bool true, r)
        | none => Except.error "expected value"
      else if c = 'f' then
        match expectLit ['a', 'l', 's', 'e'] cs1 with
        | some r => Except.ok (Json.bool false, r)
        | none => Except.error "expected value"
      else if c = '"' then
        match parseStringBody (cs1.length + 1) cs1 with
        | Except.ok (s, r) => Except.ok (Json.str (String.mk s), r)
        | Except.error e => Except.error e
      else if c = '[' then
        match skipWs cs1 with
        | ']' :: r => Except.ok (Json.arr [], r)
        | cs2 =>
          match parseElems fuel cs2 with
          | Except.ok (l, r) => Except.ok (Json.arr l, r)
          | Except.error e => Except.error e
      else if c = lbrace then
        match skipWs cs1 with
        | [] => Except.error "unexpected end of input"
        | c2 :: r =>
          if c2 = rbrace then Except.ok (Json.obj [], r)
          else
            match parseMembers fuel (c2 :: r) with
            | Except.ok (l, r2) => Except.ok (Json.obj l, r2)
            | Except.error e => Except.error e
      else if c = '-' || isDigitChar c then
        match parseNumber (c :: cs1) with
        | Except.ok (q, r) => Except.ok (Json.num q, r)
        | Except.error e => Except.error e
      else Except.error "expected value"

def parseElems : Nat → List Char → Except String (List Json × List Char)
  | 0, _ => Except.error "recursion limit exceeded"
  | fuel + 1, cs =>
    match parseValue fuel cs with
    | Except.error e => Except.error e
    | Except.ok (v, r) =>
      match skipWs r with
      | ',' :: r2 =>
        match parseElems fuel r2 with
        | Except.ok (l, r3) => Except.ok (v :: l, r3)
        | Except.error e => Except.error e
      | ']' :: r2 => Except.ok ([v], r2)
      | _ => Except.error "expected comma or closing bracket"

def parseMembers : Nat → List Char → Except String (List (String × Json) × List Char)
  | 0, _ => Except.error "recursion limit exceeded"
  | fuel + 1, cs =>
    match skipWs cs with
    | '"' :: cs1 =>
      match parseStringBody (cs1.length + 1) cs1 with
      | Except.error e => Except.error e
      | Except.ok (k, r) =>
        match skipWs r with
        | ':' :: r2 =>
          match parseValue fuel r2 with
          | Except.error e => Except.error e
          | Except.ok (v, r3) =>
            match skipWs r3 with
            | [] => Except.error "unexpected end of input"
            | c :: r4 =>
              if c = ',' then
                match parseMembers fuel r4 with
                | Except.ok (l, r5) => Except.ok ((String.mk k, v) :: l, r5)
                | Except.error e => Except.error e
              else if c = rbrace then Except.ok ([(String.mk k, v)], r4)
              else Except.error "expected comma or closing brace"
        | _ => Except.error "expected colon"
    | _ => Except.error "key must be a string"

end

def Json.parse (s : String) : Except String Json :=
  match parseValue (2 * s.length + 2) s.data with
  | Except.error e => Except.error e
  | Except.ok (j, rest) =>
    if (skipWs rest).isEmpty then Except.ok j else Except.error "trailing characters"

/-- `serde_json::from_str::<AppData>`: text to `Json` tree to `AppData`. -/
def parseAppData (s : String) : Except String AppData :=
  match Json.parse s with
  | Except.error e => Except.error e
  | Except.ok j =>
    match AppData.fromJson j with
    | some d => Except.ok d
    | none => Except.error "invalid AppData document"

/-! ## JSON pretty printing (`serde_json::to_string_pretty`)

Two-space indentation, `": "` after keys, `[]`/`\x7b\x7d` for empty
containers — serde's `PrettyFormatter`. -/

def hexDigitChar (n : Nat) : Char :=
  if n < 10 then Char.ofNat (48 + n) else Char.ofNat (87 + n)

def escChar (c : Char) : List Char :=
  if c = '"' then ['\\', '"']
  else if c = '\\' then ['\\', '\\']
  else if c = Char.ofNat 8 then ['\\', 'b']
  else if c = Char.ofNat 12 then ['\\', 'f']
  else if c = Char.ofNat 10 then ['\\', 'n']
  else if c = Char.ofNat 13 then ['\\', 'r']
  else if c = Char.ofNat 9 then ['\\', 't']
  else if c.toNat < 32 then
    ['\\', 'u', '0', '0', hexDigitChar (c.toNat / 16), hexDigitChar (c.toNat % 16)]
  else [c]

def escList (l : List Char) : List Char :=
  l.foldr (fun c acc => escChar c ++ acc) []

def escapeJsonString (s : String) : String :=
  String.mk (escList s.data)

/-- Decimal digits of a natural number, most significant first; the fuel
is structural so the function evaluates in the kernel. -/
def natToDigitsGo : Nat → Nat → List Char → List Char
  | 0, _, acc => acc
  | fuel + 1, n, acc =>
    if n < 10 then Char.ofNat (48 + n % 10) :: acc
    else natToDigitsGo fuel (n / 10) (Char.ofNat (48 + n % 10) :: acc)

def natToDigits (n : Nat) : List Char := natToDigitsGo (n + 1) n []

/-- Decimal rendering of a natural number (what Rust's formatter emits). -/
def natToString (n : Nat) : String := String.mk (natToDigits n)

/-- Decimal rendering of an integer. -/
def intToString (i : Int) : String := (if i < 0 then "-" else "") ++ natToString i.natAbs

/-- Least `k ≤ 1100` with `den ∣ 10 ^ k`; every number an `f64` holds has
such an exponent (its denominator is a power of two no larger than
`2 ^ 1074`). -/
def pow10Exp (den : Nat) : Option Nat :=
  (List.range 1101).find? fun k => decide (den ∣ 10 ^ k)

def padLeftZeros (s : String) (k : Nat) : String :=
  String.mk (List.replicate (k - s.length) '0') ++ s

/-- Decimal rendering of a JSON number (serde prints the shortest decimal
form of the `f64`).  The fallback branch cannot arise from an `f64`. -/
def ratToJsonString (q : Rat) : String :=
  if q.den = 1 then intToString q.num
  else
    match pow10Exp q.den with
    | some k =>
      let scaled : Nat := q.num.natAbs * 10 ^ k / q.den
      (if q.num < 0 then "-" else "") ++ natToString (scaled / 10 ^ k) ++ "." ++
        padLeftZeros (natToString (scaled % 10 ^ k)) k
    | none => intToString q.num

def indentStr (n : Nat) : String := String.mk (List.replicate (2 * n) ' ')

mutual

def renderPretty : Nat → Json → String
  | _, Json.null => "null"
  | _, Json.bool true => "true"
  | _, Json.bool false => "false"
  | _, Json.num q => ratToJsonString q
  | _, Json.str s => "\"" ++ escapeJsonString s ++ "\""
  | _, Json.arr [] => "[]"
  | ind, Json.arr (x :: xs) =>
    "[\n" ++ renderItems (ind + 1) x xs ++ "\n" ++ indentStr ind ++ "]"
  | _, Json.obj [] => "\x7b\x7d"
  | ind, Json.obj (kv :: kvs) =>
    "\x7b\n" ++ renderMembers (ind + 1) kv kvs ++ "\n" ++ indentStr ind ++ "\x7d"
termination_by _ j => sizeOf j

def renderItems : Nat → Json → List Json → String
  | ind, x, [] => indentStr ind ++ renderPretty ind x
  | ind, x, y :: ys => indentStr ind ++ renderPretty ind x ++ ",\n" ++ renderItems ind y ys
termination_by _ x xs => sizeOf x + sizeOf xs

def renderMembers : Nat → String × Json → List (String × Json) → String
  | ind, (k, v), [] =>
    indentStr ind ++ "\"" ++ escapeJsonString k ++ "\": " ++ renderPretty ind v
  | ind, (k, v), kv :: kvs =>
    indentStr ind ++ "\"" ++ escapeJsonString k ++ "\": " ++ renderPretty ind v ++ ",\n" ++
      renderMembers ind kv kvs
termination_by _ kv kvs => sizeOf kv + sizeOf kvs

end

def to_string_pretty (j : Json) : String := renderPretty 0 j

/-! ## Printability

The side conditions under which rendering a tree and parsing the text
back is the identity: every number's denominator divides a power of ten
(true of every value an `f64` holds, whose denominator is a power of two
at most `2 ^ 1074`). -/

/-- Characters that may follow a rendered number without extending it:
anything but a digit, a decimal point or an exponent marker. -/
def goodRest : List Char → Prop
  | [] => True
  | c :: _ => isDigitChar c = false ∧ c ≠ '.' ∧ c ≠ 'e' ∧ c ≠ 'E'

def headNotDigit : List Char → Prop
  | [] => True
  | c :: _ => isDigitChar c = false

mutual

def PrintableItems : List Json → Prop
  | [] => True
  | x :: xs => Printable x ∧ PrintableItems xs
termination_by l => sizeOf l

def PrintableMembers : List (String × Json) → Prop
  | [] => True
  | (_, v) :: kvs => Printable v ∧ PrintableMembers kvs
termination_by l => sizeOf l

def Printable : Json → Prop
  | Json.null => True
  | Json.bool _ => True
  | Json.num q => q.den ∣ 10 ^ 1100
  | Json.str _ => True
  | Json.arr l => PrintableItems l
  | Json.obj kvs => PrintableMembers kvs
termination_by j => sizeOf j

end

/-! `jsonSize` is fuel sufficient for `parseValue` on a rendered tree
(with companions for item and member lists). -/

mutual

def jsonSize : Json → Nat
  | Json.arr [] => 1
  | Json.arr (x :: xs) => 1 + itemsSize x xs
  | Json.obj [] => 1
  | Json.obj (kv :: kvs) => 1 + membersSize kv kvs
  | _ => 1
termination_by j => sizeOf j

def itemsSize : Json → List Json → Nat
  | x, [] => 1 + jsonSize x
  | x, y :: ys => 1 + jsonSize x + itemsSize y ys
termination_by x xs => sizeOf x + sizeOf xs

def membersSize : String × Json → List (String × Json) → Nat
  | (_, v), [] => 1 + jsonSize v
  | (_, v), kv :: kvs => 1 + jsonSize v + membersSize kv kvs
termination_by kv kvs => sizeOf kv + sizeOf kvs

end

/-! ## Path model (`std::path::Path`, Unix)

Paths are strings; the helpers below model `file_name`, `file_stem`,
`parent`, `join` and `is_absolute` for the plain paths the application
passes around (no `.`/`..` components, no trailing slashes — for those
forms the model agrees with the Rust standard library). -/

/-- `Path::file_name`: the part after the last `'/'`; `None` when that
part is empty, `"."`, or `".."`. -/
def fileNameOf (p : String) : Option String :=
  let base := String.mk ((p.data.reverse.takeWhile (fun c => !(c == '/'))).reverse)
  if base = "" || base = "." || base = ".." then none else some base

/-- `Path::file_stem` applied to a file name: the portion before the last
`'.'`, or the whole name when there is no dot or the only dot leads. -/
def stemOfName (n : String) : String :=
  match n.data.reverse.dropWhile (fun c => !(c == '.')) with
  | [] => n
  | [_] => n
  | _ :: rest => String.mk rest.reverse

/-- `Path::file_stem` on a path. -/
def fileStemOf (p : String) : Option String := (fileNameOf p).map stemOfName

/-- `Path::parent`: the path without its last component; `None` for `""`
and `"/"`. -/
def parentOf (p : String) : Option String :=
  if p = "" || p = "/" then none
  else if p.data.contains '/' then
    match ((p.data.reverse.dropWhile (fun c => !(c == '/'))).reverse).dropLast with
    | [] => some "/"
    | before => some (String.mk before)
  else some ""

/-- Rust's `str::starts_with`, on the character lists (the byte-level
`String.startsWith` does not reduce in the kernel). -/
def strStartsWith (s p : String) : Bool := p.data.isPrefixOf s.data

/-- Rust's `str::ends_with`. -/
def strEndsWith (s p : String) : Bool := p.data.isSuffixOf s.data

/-- `Path::join` with a relative file name on the right. -/
def joinPath (base name : String) : String :=
  if base = "" then name
  else if strEndsWith base "/" then base ++ name
  else base ++ "/" ++ name

/-- `Path::is_absolute` on Unix: the path has a root. -/
def isAbsolutePath (p : String) : Bool := strStartsWith p "/"

/-! ## Timestamp formatting (`chrono`)

`Utc::now().format("%Y-%m-%d_%H-%M-%S")` on an instant modelled as whole
seconds since the Unix epoch. -/

/-- Civil date from days since 1970-01-01 (the standard era-based
conversion used by civil-time libraries), for dates from the epoch on. -/
def civilFromDays (z0 : Nat) : Nat × Nat × Nat :=
  let z := z0 + 719468
  let era := z / 146097
  let doe := z % 146097
  let yoe := (doe - doe / 1460 + doe / 36524 - doe / 146096) / 365
  let y := yoe + era * 400
  let doy := doe - (365 * yoe + yoe / 4 - yoe / 100)
  let mp := (5 * doy + 2) / 153
  let d := doy - (153 * mp + 2) / 5 + 1
  let m := if mp < 10 then mp + 3 else mp - 9
  (if m ≤ 2 then y + 1 else y, m, d)

def pad2 (n : Nat) : String := if n < 10 then "0" ++ toString n else toString n

def pad4 (n : Nat) : String :=
  if n < 10 then "000" ++ toString n
  else if n < 100 then "00" ++ toString n
  else if n < 1000 then "0" ++ toString n
  else toString n

/-- `%Y-%m-%d_%H-%M-%S` in UTC of an epoch-seconds instant. -/
def formatTimestamp (t : Nat) : String :=
  let secs := t % 86400
  match civilFromDays (t / 86400) with
  | (y, m, d) =>
    pad4 y ++ "-" ++ pad2 m ++ "-" ++ pad2 d ++ "_" ++
      pad2 (secs / 3600) ++ "-" ++ pad2 (secs % 3600 / 60) ++ "-" ++ pad2 (secs % 60)

/-! ## Filesystem model

File contents are an association list from full paths to content strings;
`dirs` lists the directory paths that exist.  Writes and removals of
plain files succeed; the flags that let metadata reads or deletions fail
live in the directory-scan model further down, where the source actually
tolerates such failures. -/

structure Fs where
  files : List (String × String)
  dirs : List String
deriving DecidableEq, Repr

/-- `fs::read_to_string` (and the content seen by `fs::copy`). -/
def Fs.readFile (fs : Fs) (p : String) : Option String := fs.files.lookup p

/-- `Path::exists`: true for files and directories alike. -/
def Fs.pathExists (fs : Fs) (p : String) : Bool :=
  (fs.readFile p).isSome || fs.dirs.contains p

/-- `fs::write`: create or truncate-and-overwrite. -/
def Fs.writeFile (fs : Fs) (p c : String) : Fs :=
  { fs with files := (p, c) :: fs.files.filter (fun e => !(e.1 == p)) }

/-- `fs::remove_file`. -/
def Fs.removeFile (fs : Fs) (p : String) : Fs :=
  { fs with files := fs.files.filter (fun e => !(e.1 == p)) }

/-! ## The backend commands over `Fs` (main.rs lines 65-298) -/

/-- `load_data_file` (main.rs lines 65-86). -/
def load_data_file (fs : Fs) (path : String) : Except String AppData :=
  if !(fs.pathExists path) then Except.ok AppData.default
  else
    match fs.readFile path with
    | some content =>
      if strStartsWith content "\x7b" then
        match parseAppData content with
        | Except.ok data => Except.ok data
        | Except.error e => Except.error ("Failed to parse JSON: " ++ e)
      else Except.error "File is not a valid JSON data file"
    | none => Except.error "Failed to read file: Is a directory (os error 21)"

/-- `create_backup` (main.rs lines 107-129); the capture instant is the
`now` argument.  Serialization of an `AppData` value and the write both
succeed, so the two error arms of the source are not taken. -/
def create_backup (fs : Fs) (path : String) (data : AppData) (now : Nat) :
    Except String String × Fs :=
  let file_stem := (fileStemOf path).getD "backup"
  let parent_dir := (parentOf path).getD "."
  let backup_name := file_stem ++ "_backup_" ++ formatTimestamp now ++ ".json"
  let backup_path := joinPath parent_dir backup_name
  (Except.ok backup_path, fs.writeFile backup_path (to_string_pretty (AppData.toJson data)))

/-- `restore_backup` (main.rs lines 276-286). -/
def restore_backup (fs : Fs) (backup_path target_path : String) :
    Except String Unit × Fs :=
  if !(fs.pathExists backup_path) then (Except.error "Backup file does not exist", fs)
  else
    match fs.readFile backup_path with
    | some c => (Except.ok (), fs.writeFile target_path c)
    | none => (Except.error "Failed to restore backup: Is a directory (os error 21)", fs)

/-- `delete_backup` (main.rs lines 288-298). -/
def delete_backup (fs : Fs) (backup_path : String) : Except String Unit × Fs :=
  if !(fs.pathExists backup_path) then (Except.error "Backup file does not exist", fs)
  else
    match fs.readFile backup_path with
    | some _ => (Except.ok (), fs.removeFile backup_path)
    | none => (Except.error "Failed to delete backup: Is a directory (os error 21)", fs)

/-- `validate_file_path` (main.rs lines 171-189). -/
def validate_file_path (fs : Fs) (path : String) : Except String Bool :=
  if !(isAbsolutePath path) then Except.error "Path must be absolute"
  else
    match parentOf path with
    | some parent =>
      if !(fs.pathExists parent) then Except.error "Parent directory does not exist"
      else Except.ok (fs.pathExists path)
    | none => Except.ok (fs.pathExists path)

/-! ## Directory scans (`cleanup_old_backups`, `export_backup_list`)

A scanned directory is its list of entries; each entry records the name,
the filesystem creation time (seconds since the epoch), the size, and
whether `entry.metadata()`, `metadata.created()` and `fs::remove_file`
succeed on it.  `present` is `Path::exists` of the directory itself.

`export_backup_list` sorts by the `to_rfc3339` rendering of the creation
time; on chrono's fixed-layout renderings the lexicographic string order
agrees with the numeric order of the instants, so both sorts are
modelled as a comparison of the timestamps themselves.  Rust's stable
`sort_by` is modelled by the stable `List.insertionSort`. -/

structure Entry where
  name : String
  created : Nat
  size : Nat
  metaReadable : Bool
  createdReadable : Bool
  deletable : Bool
deriving DecidableEq, Repr

structure Dir where
  present : Bool
  path : String
  entries : List Entry
deriving DecidableEq, Repr

/-- The name filter both scans share:
`file_name.starts_with(format!("\x7b\x7d_backup_", file_stem)) && file_name.ends_with(".json")`. -/
def matchesBackup (stem name : String) : Bool :=
  strStartsWith name (stem ++ "_backup_") && strEndsWith name ".json"

/-- The entries both scans keep: name matches and both metadata reads
succeed (failures are silently skipped). -/
def backupCandidates (stem : String) (entries : List Entry) : List Entry :=
  entries.filter fun e => matchesBackup stem e.name && e.metaReadable && e.createdReadable

/-- Newest first: `|a, b| b.1.cmp(&a.1)` viewed as a `≤`-style relation. -/
def newerFirst (a b : Entry) : Prop := b.created ≤ a.created

instance : DecidableRel newerFirst := fun a b => Nat.decLe b.created a.created

/-- `cleanup_old_backups` (main.rs lines 131-164): scan, sort newest
first, and best-effort-delete everything past the first `keep_count`.  A
targeted entry whose `deletable` flag is false stays (the `let _ =`
swallows the failure). -/
def cleanup_old_backups (d : Dir) (file_stem : String) (keep_count : Nat) :
    Except String Unit × Dir :=
  if !d.present then (Except.ok (), d)
  else
    let backups := backupCandidates file_stem d.entries
    let sorted := backups.insertionSort newerFirst
    let delNames := (sorted.drop keep_count).map Entry.name
    (Except.ok (),
      { d with entries := d.entries.filter fun e => !(delNames.contains e.name && e.deletable) })

structure BackupInfo where
  filename : String
  path : String
  created : Nat
  size : Nat
deriving DecidableEq, Repr

def Entry.toInfo (dirPath : String) (e : Entry) : BackupInfo :=
  { filename := e.name, path := joinPath dirPath e.name, created := e.created, size := e.size }

def infoNewerFirst (a b : BackupInfo) : Prop := b.created ≤ a.created

instance : DecidableRel infoNewerFirst := fun a b => Nat.decLe b.created a.created

/-- `export_backup_list` (main.rs lines 232-266). -/
def export_backup_list (d : Dir) (file_stem : String) : Except String (List BackupInfo) :=
  if !d.present then Except.ok []
  else
    Except.ok
      (((backupCandidates file_stem d.entries).map (Entry.toInfo d.path)).insertionSort
        infoNewerFirst)

/-! ## Helper lemmas about the filesystem model -/

theorem lookup_filterOut (l : List (String × String)) (p : String) :
    (l.filter fun e => !(e.1 == p)).lookup p = none := by
  induction l with
  | nil => rfl
  | cons a t ih =>
    obtain ⟨k, v⟩ := a
    by_cases h : k = p
    · simpa [List.filter_cons, h] using ih
    · have hpk : (p == k) = false := beq_eq_false_iff_ne.mpr (Ne.symm h)
      simp [List.filter_cons, h, List.lookup_cons, hpk, ih]

theorem readFile_writeFile_self (fs : Fs) (p c : String) :
    (fs.writeFile p c).readFile p = some c := by
  simp [Fs.writeFile, Fs.readFile]

theorem readFile_removeFile_self (fs : Fs) (p : String) :
    (fs.removeFile p).readFile p = none :=
  lookup_filterOut fs.files p

theorem pathExists_of_readFile {fs : Fs} {p : String} {c : String}
    (h : fs.readFile p = some c) : fs.pathExists p = true := by
  simp [Fs.pathExists, h]

/-! ## C4 -/

/-- C4: for every path that does not exist on disk, `load_data_file`
succeeds and returns the default document: no households, theme
`"light"`, `auto_backup` on, `backup_count` 10, no `last_file_path`, and
the current version string. -/
theorem load_missing_returns_default (fs : Fs) (path : String)
    (h : fs.pathExists path = false) :
    load_data_file fs path = Except.ok AppData.default ∧
    AppData.default.households = [] ∧
    AppData.default.settings.theme = "light" ∧
    AppData.default.settings.auto_backup = true ∧
    AppData.default.settings.backup_count = 10 ∧
    AppData.default.settings.last_file_path = none ∧
    AppData.default.version = "1.0.0" := by
  refine ⟨?_, rfl, rfl, rfl, rfl, rfl, rfl⟩
  simp [load_data_file, h]

theorem load_missing_returns_default_witness :
    load_data_file ⟨[], []⟩ "/data/house.json" = Except.ok AppData.default :=
  (load_missing_returns_default ⟨[], []⟩ "/data/house.json" (by decide)).1

/-! ## C5 -/

/-- C5: for an existing file, `load_data_file` fails with the format
error whenever the content does not begin with the object marker, and
with a parse error carrying the parser message whenever it begins with
the marker but does not parse as an `AppData` document. -/
theorem load_corrupt_file_errors (fs : Fs) (path content : String)
    (hread : fs.readFile path = some content) :
    (strStartsWith content "\x7b" = false →
      load_data_file fs path = Except.error "File is not a valid JSON data file") ∧
    (∀ e, strStartsWith content "\x7b" = true → parseAppData content = Except.error e →
      load_data_file fs path = Except.error ("Failed to parse JSON: " ++ e)) := by
  have hex := pathExists_of_readFile hread
  constructor
  · intro hns
    simp [load_data_file, hex, hread, hns]
  · intro e hs hp
    simp [load_data_file, hex, hread, hs, hp]

theorem load_corrupt_file_errors_witness :
    load_data_file ⟨[("/d/f.json", "not json")], []⟩ "/d/f.json" =
        Except.error "File is not a valid JSON data file" ∧
    load_data_file ⟨[("/d/g.json", "\x7bbad")], []⟩ "/d/g.json" =
        Except.error ("Failed to parse JSON: " ++ "key must be a string") :=
  ⟨(load_corrupt_file_errors ⟨[("/d/f.json", "not json")], []⟩ "/d/f.json" "not json"
      rfl).1 (by decide),
   (load_corrupt_file_errors ⟨[("/d/g.json", "\x7bbad")], []⟩ "/d/g.json" "\x7bbad"
      rfl).2 "key must be a string" (by decide) rfl⟩

/-! ## C7 -/

/-- C7: restoring from a missing snapshot fails with the not-found error
and leaves the filesystem (in particular the target file) untouched;
restoring from an existing snapshot copies its bytes onto the target,
overwriting it unconditionally, with no parsing of the content. -/
theorem restore_backup_spec (fs : Fs) (bp tp : String) :
    (fs.pathExists bp = false →
      restore_backup fs bp tp = (Except.error "Backup file does not exist", fs)) ∧
    (∀ c, fs.readFile bp = some c →
      restore_backup fs bp tp = (Except.ok (), fs.writeFile tp c) ∧
      (fs.writeFile tp c).readFile tp = some c) := by
  constructor
  · intro h
    simp [restore_backup, h]
  · intro c hc
    exact ⟨by simp [restore_backup, pathExists_of_readFile hc, hc],
      readFile_writeFile_self fs tp c⟩

theorem restore_backup_spec_witness :
    restore_backup ⟨[("/d/t.json", "old")], []⟩ "/d/b.json" "/d/t.json" =
        (Except.error "Backup file does not exist", ⟨[("/d/t.json", "old")], []⟩) ∧
    restore_backup ⟨[("/d/b.json", "snap")], []⟩ "/d/b.json" "/d/t.json" =
        (Except.ok (), Fs.writeFile ⟨[("/d/b.json", "snap")], []⟩ "/d/t.json" "snap") :=
  ⟨(restore_backup_spec ⟨[("/d/t.json", "old")], []⟩ "/d/b.json" "/d/t.json").1 (by decide),
   ((restore_backup_spec ⟨[("/d/b.json", "snap")], []⟩ "/d/b.json" "/d/t.json").2 "snap"
      rfl).1⟩

/-! ## C8 -/

/-- C8: deleting a missing snapshot fails with the not-found error;
deleting an existing snapshot file removes it, after which the same
delete fails with the not-found error instead of silently succeeding. -/
theorem delete_backup_spec (fs : Fs) (bp : String) :
    (fs.pathExists bp = false →
      delete_backup fs bp = (Except.error "Backup file does not exist", fs)) ∧
    (∀ c, fs.readFile bp = some c → fs.dirs.contains bp = false →
      delete_backup fs bp = (Except.ok (), fs.removeFile bp) ∧
      (fs.removeFile bp).pathExists bp = false ∧
      delete_backup (fs.removeFile bp) bp =
        (Except.error "Backup file does not exist", fs.removeFile bp)) := by
  constructor
  · intro h
    simp [delete_backup, h]
  · intro c hc hd
    have hgone : (fs.removeFile bp).pathExists bp = false := by
      have h1 := readFile_removeFile_self fs bp
      have h2 : bp ∉ fs.dirs := by simpa using hd
      simp only [Fs.removeFile] at h1
      simp [Fs.pathExists, Fs.removeFile, h1, h2]
    refine ⟨by simp [delete_backup, pathExists_of_readFile hc, hc], hgone, ?_⟩
    simp [delete_backup, hgone]

theorem delete_backup_spec_witness :
    delete_backup ⟨[("/d/b.json", "snap")], []⟩ "/d/b.json" =
        (Except.ok (), Fs.removeFile ⟨[("/d/b.json", "snap")], []⟩ "/d/b.json") ∧
    delete_backup (Fs.removeFile ⟨[("/d/b.json", "snap")], []⟩ "/d/b.json") "/d/b.json" =
        (Except.error "Backup file does not exist",
         Fs.removeFile ⟨[("/d/b.json", "snap")], []⟩ "/d/b.json") :=
  ⟨((delete_backup_spec ⟨[("/d/b.json", "snap")], []⟩ "/d/b.json").2 "snap" rfl
      (by decide)).1,
   ((delete_backup_spec ⟨[("/d/b.json", "snap")], []⟩ "/d/b.json").2 "snap" rfl
      (by decide)).2.2⟩

/-! ## C9 -/

/-- C9: `validate_file_path` fails with the invalid-path error on a
relative path, fails with it on an absolute path whose parent directory
does not exist, and otherwise succeeds, returning exactly whether the
target itself currently exists. -/
theorem validate_file_path_spec (fs : Fs) (path : String) :
    (isAbsolutePath path = false →
      validate_file_path fs path = Except.error "Path must be absolute") ∧
    (∀ par, isAbsolutePath path = true → parentOf path = some par →
      fs.pathExists par = false →
      validate_file_path fs path = Except.error "Parent directory does not exist") ∧
    (∀ par, isAbsolutePath path = true → parentOf path = some par →
      fs.pathExists par = true →
      validate_file_path fs path = Except.ok (fs.pathExists path)) ∧
    (isAbsolutePath path = true → parentOf path = none →
      validate_file_path fs path = Except.ok (fs.pathExists path)) := by
  refine ⟨fun h => by simp [validate_file_path, h], ?_, ?_, ?_⟩
  · intro par habs hpar hne
    simp [validate_file_path, habs, hpar, hne]
  · intro par habs hpar hex
    simp [validate_file_path, habs, hpar, hex]
  · intro habs hpar
    simp [validate_file_path, habs, hpar]

theorem validate_file_path_spec_witness :
    validate_file_path ⟨[("/data/house.json", "x")], ["/data"]⟩ "data/house.json" =
        Except.error "Path must be absolute" ∧
    validate_file_path ⟨[("/data/house.json", "x")], ["/data"]⟩ "/nope/house.json" =
        Except.error "Parent directory does not exist" ∧
    validate_file_path ⟨[("/data/house.json", "x")], ["/data"]⟩ "/data/house.json" =
        Except.ok true :=
  ⟨(validate_file_path_spec ⟨[("/data/house.json", "x")], ["/data"]⟩ "data/house.json").1
      (by decide),
   (validate_file_path_spec ⟨[("/data/house.json", "x")], ["/data"]⟩ "/nope/house.json").2.1
      "/nope" (by decide) (by decide) (by decide),
   by
    have h := (validate_file_path_spec ⟨[("/data/house.json", "x")], ["/data"]⟩
      "/data/house.json").2.2.1 "/data" (by decide) (by decide) (by decide)
    rwa [show Fs.pathExists ⟨[("/data/house.json", "x")], ["/data"]⟩ "/data/house.json" = true
      from by decide] at h⟩

/-! ## C2 -/

theorem create_backup_eq (fs : Fs) (path : String) (data : AppData) (t : Nat)
    (stem par : String) (hs : fileStemOf path = some stem) (hp : parentOf path = some par) :
    create_backup fs path data t =
      (Except.ok (joinPath par (stem ++ "_backup_" ++ formatTimestamp t ++ ".json")),
       fs.writeFile (joinPath par (stem ++ "_backup_" ++ formatTimestamp t ++ ".json"))
         (to_string_pretty (AppData.toJson data))) := by
  simp [create_backup, hs, hp]

/-- C2: `create_backup` writes the pretty-printed JSON of the document to
`\x7bstem\x7d_backup_\x7bUTC timestamp\x7d.json` in the base path's
parent directory and returns that path; `/data/house.json` at
2024-03-05T10:15:30Z (epoch second 1709633730) yields
`/data/house_backup_2024-03-05_10-15-30.json`; without a stem the
literal `"backup"` is used, and without a parent the current working
directory (`"."`). -/
theorem create_backup_spec :
    (∀ (fs : Fs) (path : String) (data : AppData) (t : Nat) (stem par : String),
      fileStemOf path = some stem → parentOf path = some par →
      create_backup fs path data t =
        (Except.ok (joinPath par (stem ++ "_backup_" ++ formatTimestamp t ++ ".json")),
         fs.writeFile (joinPath par (stem ++ "_backup_" ++ formatTimestamp t ++ ".json"))
           (to_string_pretty (AppData.toJson data))) ∧
      (create_backup fs path data t).2.readFile
          (joinPath par (stem ++ "_backup_" ++ formatTimestamp t ++ ".json")) =
        some (to_string_pretty (AppData.toJson data))) ∧
    (∀ (fs : Fs) (data : AppData),
      create_backup fs "/data/house.json" data 1709633730 =
        (Except.ok "/data/house_backup_2024-03-05_10-15-30.json",
         fs.writeFile "/data/house_backup_2024-03-05_10-15-30.json"
           (to_string_pretty (AppData.toJson data)))) ∧
    (∀ (fs : Fs) (path : String) (data : AppData) (t : Nat),
      fileStemOf path = none →
      (create_backup fs path data t).1 =
        Except.ok (joinPath ((parentOf path).getD ".")
          ("backup_backup_" ++ formatTimestamp t ++ ".json"))) ∧
    (∀ (fs : Fs) (path : String) (data : AppData) (t : Nat),
      parentOf path = none →
      (create_backup fs path data t).1 =
        Except.ok (joinPath "." (((fileStemOf path).getD "backup") ++ "_backup_" ++
          formatTimestamp t ++ ".json"))) := by
  refine ⟨?_, ?_, ?_, ?_⟩
  · intro fs path data t stem par hs hp
    have h := create_backup_eq fs path data t stem par hs hp
    refine ⟨h, ?_⟩
    rw [h]
    exact readFile_writeFile_self fs _ _
  · intro fs data
    have h := create_backup_eq fs "/data/house.json" data 1709633730 "house" "/data" rfl rfl
    have e : joinPath "/data" ("house" ++ "_backup_" ++ formatTimestamp 1709633730 ++ ".json") =
        "/data/house_backup_2024-03-05_10-15-30.json" := by decide
    rwa [e] at h
  · intro fs path data t hs
    simp [create_backup, hs]
  · intro fs path data t hp
    simp [create_backup, hp]

theorem create_backup_spec_witness :
    create_backup ⟨[], []⟩ "/data/house.json" AppData.default 1709633730 =
      (Except.ok (joinPath "/data" ("house" ++ "_backup_" ++ formatTimestamp 1709633730 ++ ".json")),
       Fs.writeFile ⟨[], []⟩
         (joinPath "/data" ("house" ++ "_backup_" ++ formatTimestamp 1709633730 ++ ".json"))
         (to_string_pretty (AppData.toJson AppData.default))) ∧
    (create_backup ⟨[], []⟩ "/data/house.json" AppData.default 1709633730).2.readFile
        (joinPath "/data" ("house" ++ "_backup_" ++ formatTimestamp 1709633730 ++ ".json")) =
      some (to_string_pretty (AppData.toJson AppData.default)) :=
  create_backup_spec.1 ⟨[], []⟩ "/data/house.json" AppData.default 1709633730 "house" "/data"
    rfl rfl

/-! ## Decimal rendering and parsing agree -/

theorem digitChar_toNat {r : Nat} (h : r < 10) : (Char.ofNat (48 + r)).toNat = 48 + r := by
  interval_cases r <;> decide

theorem digitChar_isDigit {r : Nat} (h : r < 10) : isDigitChar (Char.ofNat (48 + r)) = true := by
  interval_cases r <;> decide

theorem natToDigitsGo_digits :
    ∀ (fuel n : Nat) (acc : List Char), (∀ c ∈ acc, isDigitChar c = true) →
      ∀ c ∈ natToDigitsGo fuel n acc, isDigitChar c = true
  | 0, _, _, hacc => hacc
  | fuel + 1, n, acc, hacc => by
    have hd : ∀ c ∈ (Char.ofNat (48 + n % 10) :: acc), isDigitChar c = true := by
      intro c hc
      rcases List.mem_cons.mp hc with h | h
      · subst h
        exact digitChar_isDigit (Nat.mod_lt _ (by norm_num))
      · exact hacc c h
    simp only [natToDigitsGo]
    split
    · exact hd
    · exact natToDigitsGo_digits fuel (n / 10) _ hd

theorem natToDigits_digits (n : Nat) : ∀ c ∈ natToDigits n, isDigitChar c = true :=
  natToDigitsGo_digits (n + 1) n [] (by simp)

theorem foldl_digits_from (l : List Char) :
    ∀ s : Nat, l.foldl (fun n c => n * 10 + (c.toNat - 48)) s
      = s * 10 ^ l.length + natOfDigits l := by
  induction l with
  | nil => intro s; simp [natOfDigits]
  | cons c t ih =>
    intro s
    show t.foldl _ (s * 10 + (c.toNat - 48)) = _
    rw [ih]
    have h2 : natOfDigits (c :: t) = (c.toNat - 48) * 10 ^ t.length + natOfDigits t := by
      show t.foldl _ (0 * 10 + (c.toNat - 48)) = _
      rw [ih]
      ring_nf
    rw [h2, List.length_cons]
    ring

theorem natToDigitsGo_value :
    ∀ (fuel n : Nat) (acc : List Char), n < 10 ^ fuel →
      natOfDigits (natToDigitsGo fuel n acc) = n * 10 ^ acc.length + natOfDigits acc
  | 0, n, acc, h => by
    have hn : n = 0 := by simpa using h
    subst hn
    simp [natToDigitsGo]
  | fuel + 1, n, acc, h => by
    have hmod : n % 10 < 10 := Nat.mod_lt _ (by norm_num)
    have hval : (Char.ofNat (48 + n % 10)).toNat - 48 = n % 10 := by
      rw [digitChar_toNat hmod]
      omega
    simp only [natToDigitsGo]
    split
    · next hlt =>
      show List.foldl _ 0 _ = _
      show List.foldl _ (0 * 10 + ((Char.ofNat (48 + n % 10)).toNat - 48)) acc = _
      rw [foldl_digits_from, hval, Nat.mod_eq_of_lt hlt]
      have h0 : (0 * 10 + n) = n := by omega
      rw [h0]
    · next hge =>
      have hdiv : n / 10 < 10 ^ fuel := by
        rw [Nat.div_lt_iff_lt_mul (by norm_num : 0 < 10)]
        calc n < 10 ^ (fuel + 1) := h
        _ = 10 ^ fuel * 10 := by ring
      rw [natToDigitsGo_value fuel (n / 10) _ hdiv]
      have hcons : natOfDigits (Char.ofNat (48 + n % 10) :: acc)
          = (n % 10) * 10 ^ acc.length + natOfDigits acc := by
        show List.foldl _ (0 * 10 + ((Char.ofNat (48 + n % 10)).toNat - 48)) acc = _
        rw [foldl_digits_from, hval]
        ring_nf
      rw [List.length_cons, hcons]
      calc n / 10 * 10 ^ (acc.length + 1) + ((n % 10) * 10 ^ acc.length + natOfDigits acc)
          = (n / 10 * 10 + n % 10) * 10 ^ acc.length + natOfDigits acc := by ring
      _ = n * 10 ^ acc.length + natOfDigits acc := by rw [Nat.div_add_mod']

theorem natOfDigits_natToDigits (n : Nat) : natOfDigits (natToDigits n) = n := by
  have hlt : n < 10 ^ (n + 1) :=
    lt_of_lt_of_le (Nat.lt_pow_self (by norm_num) n)
      (Nat.pow_le_pow_right (by norm_num) (Nat.le_succ n))
  have h := natToDigitsGo_value (n + 1) n [] hlt
  simpa [natToDigits, natOfDigits] using h

theorem natToDigitsGo_length_mono :
    ∀ (fuel n : Nat) (acc : List Char), acc.length ≤ (natToDigitsGo fuel n acc).length
  | 0, _, _ => le_refl _
  | fuel + 1, n, acc => by
    simp only [natToDigitsGo]
    split
    · simp
    · calc acc.length ≤ (Char.ofNat (48 + n % 10) :: acc).length := by simp
      _ ≤ _ := natToDigitsGo_length_mono fuel (n / 10) _

theorem natToDigits_ne_nil (n : Nat) : natToDigits n ≠ [] := by
  have h : 1 ≤ (natToDigits n).length := by
    show 1 ≤ (natToDigitsGo (n + 1) n []).length
    simp only [natToDigitsGo]
    split
    · simp
    · calc (1 : Nat) = (Char.ofNat (48 + n % 10) :: ([] : List Char)).length := by simp
      _ ≤ _ := natToDigitsGo_length_mono n (n / 10) _
  intro hcon
  rw [hcon] at h
  simp at h

theorem natToDigitsGo_length_le :
    ∀ (fuel n : Nat) (acc : List Char) (m : Nat), n < 10 ^ m → 1 ≤ m →
      (natToDigitsGo fuel n acc).length ≤ m + acc.length
  | 0, _, acc, m, _, _ => by
    simp only [natToDigitsGo]
    omega
  | fuel + 1, n, acc, m, h, hm => by
    simp only [natToDigitsGo]
    split
    · simp only [List.length_cons]
      omega
    · next hge =>
      push_neg at hge
      have hm2 : 2 ≤ m := by
        by_contra hcon
        have : m = 1 := by omega
        subst this
        simp at h
        omega
      have hdiv : n / 10 < 10 ^ (m - 1) := by
        rw [Nat.div_lt_iff_lt_mul (by norm_num : 0 < 10)]
        calc n < 10 ^ m := h
        _ = 10 ^ (m - 1) * 10 := by
            rw [← Nat.pow_succ]
            congr 1
            omega
      have := natToDigitsGo_length_le fuel (n / 10) (Char.ofNat (48 + n % 10) :: acc)
        (m - 1) hdiv (by omega)
      simp only [List.length_cons] at this
      omega

theorem natToDigits_length_le {n m : Nat} (h : n < 10 ^ m) (hm : 1 ≤ m) :
    (natToDigits n).length ≤ m := by
  have := natToDigitsGo_length_le (n + 1) n [] m h hm
  simpa [natToDigits] using this

theorem natOfDigits_replicate_zero (z : Nat) (ds : List Char) :
    natOfDigits (List.replicate z '0' ++ ds) = natOfDigits ds := by
  induction z with
  | zero => rfl
  | succ z ih =>
    have h0 : (0 : Nat) * 10 + ('0'.toNat - 48) = 0 := by decide
    rw [List.replicate_succ, List.cons_append]
    show List.foldl _ ((0 : Nat) * 10 + ('0'.toNat - 48)) _ = _
    rw [h0]
    exact ih

theorem takeDigits_append (ds rest : List Char) (hds : ∀ c ∈ ds, isDigitChar c = true)
    (hrest : headNotDigit rest) : takeDigits (ds ++ rest) = (ds, rest) := by
  induction ds with
  | nil =>
    cases rest with
    | nil => rfl
    | cons c cs =>
      simp only [headNotDigit] at hrest
      simp [takeDigits, hrest]
  | cons d ds ih =>
    have hd : isDigitChar d = true := hds d (by simp)
    rw [List.cons_append]
    simp only [takeDigits, hd, if_true]
    rw [ih fun c hc => hds c (by simp [hc])]

theorem isDigitChar_toNat {c : Char} (h : isDigitChar c = true) :
    48 ≤ c.toNat ∧ c.toNat ≤ 57 := by
  simp only [isDigitChar, Bool.and_eq_true, decide_eq_true_eq] at h
  obtain ⟨h1, h2⟩ := h
  constructor
  · exact h1
  · exact h2

theorem digit_ne {c : Char} (h : isDigitChar c = true) :
    c ≠ 'n' ∧ c ≠ 't' ∧ c ≠ 'f' ∧ c ≠ '"' ∧ c ≠ '[' ∧ c ≠ lbrace ∧ c ≠ ']' ∧ c ≠ '-' ∧
      c ≠ '.' ∧ isWsChar c = false := by
  obtain ⟨h1, h2⟩ := isDigitChar_toNat h
  refine ⟨?_, ?_, ?_, ?_, ?_, ?_, ?_, ?_, ?_, ?_⟩ <;>
    first
    | (intro hcon; subst hcon; revert h1 h2; decide)
    | (revert h1 h2
       simp only [isWsChar]
       intro h1 h2
       have hc1 : c ≠ ' ' := by intro hcon; subst hcon; revert h1 h2; decide
       have hc2 : c ≠ '\t' := by intro hcon; subst hcon; revert h1 h2; decide
       have hc3 : c ≠ '\n' := by intro hcon; subst hcon; revert h1 h2; decide
       have hc4 : c ≠ '\r' := by intro hcon; subst hcon; revert h1 h2; decide
       simp [hc1, hc2, hc3, hc4])

theorem parseFrac_cons {c : Char} (cs : List Char) (h : c ≠ '.') :
    parseFrac (c :: cs) = Except.ok ([], c :: cs) := by
  unfold parseFrac
  split
  · next t heq =>
    exfalso
    apply h
    injection heq with h1 _
  · rfl

theorem parseFrac_goodRest (cs : List Char) (h : goodRest cs) :
    parseFrac cs = Except.ok ([], cs) := by
  cases cs with
  | nil => rfl
  | cons c cs =>
    simp only [goodRest] at h
    exact parseFrac_cons cs h.2.1

theorem parseExp_goodRest (cs : List Char) (h : goodRest cs) :
    parseExp cs = Except.ok (0, cs) := by
  cases cs with
  | nil => rfl
  | cons c cs =>
    simp only [goodRest] at h
    unfold parseExp
    split
    · next t heq =>
      exfalso
      apply h.2.2.1
      injection heq with h1 _
    · next t heq =>
      exfalso
      apply h.2.2.2
      injection heq with h1 _
    · rfl

theorem applyExp_zero (q : Rat) : applyExp q 0 = q := by
  simp [applyExp, tenPow]

theorem goodRest_headNotDigit {cs : List Char} (h : goodRest cs) : headNotDigit cs := by
  cases cs with
  | nil => trivial
  | cons c t => exact h.1

theorem parseNumber_cons_not_dash {c : Char} (cs : List Char) (h : c ≠ '-') :
    parseNumber (c :: cs) = parseNumberTail false (c :: cs) := by
  unfold parseNumber
  split
  · next t heq =>
    exfalso
    apply h
    injection heq with h1 _
  · rfl

theorem parseNumberTail_no_frac (neg : Bool) (ds rest : List Char)
    (hds : ∀ c ∈ ds, isDigitChar c = true) (hne : ds ≠ [])
    (hrest : goodRest rest) :
    parseNumberTail neg (ds ++ rest) =
      Except.ok ((if neg then -(natOfDigits ds : Rat) else (natOfDigits ds : Rat)), rest) := by
  have hempty : ds.isEmpty = false := by
    cases ds with
    | nil => exact absurd rfl hne
    | cons d t => rfl
  unfold parseNumberTail
  rw [takeDigits_append ds rest hds (goodRest_headNotDigit hrest)]
  simp only [hempty, Bool.false_eq_true, if_false,
    parseFrac_goodRest rest hrest, parseExp_goodRest rest hrest]
  have hmag : (natOfDigits ds : Rat) + (natOfDigits ([] : List Char) : Rat) /
      tenPow ([] : List Char).length = (natOfDigits ds : Rat) := by
    show (natOfDigits ds : Rat) + (0 : Rat) / tenPow 0 = (natOfDigits ds : Rat)
    rw [zero_div, add_zero]
  rw [hmag, applyExp_zero]

theorem parseNumberTail_frac (neg : Bool) (ds fs rest : List Char)
    (hds : ∀ c ∈ ds, isDigitChar c = true) (hne : ds ≠ [])
    (hfs : ∀ c ∈ fs, isDigitChar c = true) (hfne : fs ≠ [])
    (hrest : goodRest rest) :
    parseNumberTail neg (ds ++ '.' :: (fs ++ rest)) =
      Except.ok ((if neg then
          -((natOfDigits ds : Rat) + (natOfDigits fs : Rat) / tenPow fs.length)
        else (natOfDigits ds : Rat) + (natOfDigits fs : Rat) / tenPow fs.length), rest) := by
  have hempty : ds.isEmpty = false := by
    cases ds with
    | nil => exact absurd rfl hne
    | cons d t => rfl
  have hfempty : fs.isEmpty = false := by
    cases fs with
    | nil => exact absurd rfl hfne
    | cons d t => rfl
  have hfrac : parseFrac ('.' :: (fs ++ rest)) = Except.ok (fs, rest) := by
    simp only [parseFrac]
    rw [takeDigits_append fs rest hfs (goodRest_headNotDigit hrest)]
    simp [hfempty]
  unfold parseNumberTail
  rw [takeDigits_append ds ('.' :: (fs ++ rest)) hds (by simp [headNotDigit]; decide)]
  simp only [hempty, Bool.false_eq_true, if_false, hfrac, parseExp_goodRest rest hrest]
  rw [applyExp_zero]

theorem pow10Exp_eq_some {den : Nat} (hden : den ∣ 10 ^ 1100) :
    ∃ k, pow10Exp den = some k ∧ den ∣ 10 ^ k := by
  have hsome : (pow10Exp den).isSome := by
    rw [pow10Exp, List.find?_isSome]
    exact ⟨1100, by simp [List.mem_range], by simpa using hden⟩
  obtain ⟨k, hk⟩ := Option.isSome_iff_exists.mp hsome
  refine ⟨k, hk, ?_⟩
  have h2 := List.find?_some (by rw [pow10Exp] at hk; exact hk)
  simpa using h2

theorem nat_div_add_mod_cast (a b : Nat) (hb : b ≠ 0) :
    ((a / b : Nat) : Rat) + ((a % b : Nat) : Rat) / (b : Rat) = (a : Rat) / (b : Rat) := by
  have hbq : (b : Rat) ≠ 0 := Nat.cast_ne_zero.mpr hb
  have h2 : ((a / b : Nat) : Rat) * (b : Rat) + ((a % b : Nat) : Rat) = (a : Rat) := by
    exact_mod_cast congrArg (fun n : Nat => (n : Rat)) (Nat.div_add_mod' a b)
  rw [eq_div_iff hbq, add_mul, div_mul_cancel₀ _ hbq]
  exact h2

theorem data_sign (p : Prop) [Decidable p] :
    (if p then "-" else "").data = (if p then ['-'] else []) := by
  by_cases h : p
  · rw [if_pos h, if_pos h]
  · rw [if_neg h, if_neg h]

theorem data_sign_append (p : Prop) [Decidable p] (s : String) :
    ((if p then "-" else "") ++ s).data = (if p then ['-'] else []) ++ s.data := by
  by_cases h : p
  · rw [if_pos h, if_pos h]
    rfl
  · rw [if_neg h, if_neg h]
    rfl

/-- Parsing inverts the decimal rendering of a JSON number whose
denominator divides a power of ten. -/
theorem parseNumber_render (q : Rat) (rest : List Char) (hq : q.den ∣ 10 ^ 1100)
    (hrest : goodRest rest) :
    parseNumber ((ratToJsonString q).data ++ rest) = Except.ok (q, rest) := by
  have hden0 : q.den ≠ 0 := q.den_nz
  have hdenq : ((q.den : Nat) : Rat) ≠ 0 := Nat.cast_ne_zero.mpr hden0
  have habs : ((q.num.natAbs : Nat) : Rat) = |(q.num : Rat)| := by
    rw [Int.cast_natAbs, Int.cast_abs]
  by_cases hden : q.den = 1
  · -- integral: rendered as `intToString q.num`
    have hdata : (ratToJsonString q).data =
        (if q.num < 0 then ['-'] else []) ++ natToDigits q.num.natAbs := by
      rw [ratToJsonString, if_pos hden, intToString, data_sign_append]
      rfl
    have hq2 : ((q.num : Int) : Rat) = q := Rat.coe_int_num_of_den_eq_one hden
    rw [hdata]
    by_cases hneg : q.num < 0
    · simp only [hneg, if_true, List.cons_append, List.nil_append]
      rw [show parseNumber ('-' :: (natToDigits q.num.natAbs ++ rest)) =
        parseNumberTail true (natToDigits q.num.natAbs ++ rest) from rfl]
      rw [parseNumberTail_no_frac true _ rest (natToDigits_digits _) (natToDigits_ne_nil _)
        hrest]
      have hv : -((natOfDigits (natToDigits q.num.natAbs) : Nat) : Rat) = q := by
        rw [natOfDigits_natToDigits, habs,
          abs_of_neg (show (q.num : Rat) < 0 by exact_mod_cast hneg), neg_neg, hq2]
      rw [if_pos rfl, hv]
    · simp only [hneg, if_false, List.nil_append]
      obtain ⟨d, ds, hcons⟩ := List.exists_cons_of_ne_nil (natToDigits_ne_nil q.num.natAbs)
      have hd : isDigitChar d = true := by
        have h2 := natToDigits_digits q.num.natAbs
        rw [hcons] at h2
        exact h2 d (by simp)
      rw [hcons, List.cons_append,
        parseNumber_cons_not_dash _ (digit_ne hd).2.2.2.2.2.2.2.1, ← List.cons_append, ← hcons]
      rw [parseNumberTail_no_frac false _ rest (natToDigits_digits _) (natToDigits_ne_nil _)
        hrest]
      have hv : ((natOfDigits (natToDigits q.num.natAbs) : Nat) : Rat) = q := by
        rw [natOfDigits_natToDigits, habs, abs_of_nonneg
          (show (0 : Rat) ≤ (q.num : Rat) by exact_mod_cast not_lt.mp hneg), hq2]
      rw [if_neg (by simp), hv]
  · -- decimal: rendered with `k` fractional digits
    obtain ⟨k, hpk, hdvd⟩ := pow10Exp_eq_some hq
    have hk1 : 1 ≤ k := by
      rcases Nat.eq_zero_or_pos k with hk0 | h
      · exfalso
        rw [hk0, pow_zero] at hdvd
        exact hden (Nat.dvd_one.mp hdvd)
      · exact h
    have h10k : (10 : Nat) ^ k ≠ 0 := pow_ne_zero _ (by norm_num)
    set scaled := q.num.natAbs * 10 ^ k / q.den with hscaled_def
    have hscaled : scaled * q.den = q.num.natAbs * 10 ^ k :=
      Nat.div_mul_cancel (Dvd.dvd.mul_left hdvd _)
    set m2 := scaled % 10 ^ k with hm2_def
    set fs := List.replicate (k - (natToDigits m2).length) '0' ++ natToDigits m2 with hfs_def
    have hfs_digits : ∀ c ∈ fs, isDigitChar c = true := by
      intro c hc
      rcases List.mem_append.mp hc with h | h
      · rw [List.eq_of_mem_replicate h]
        decide
      · exact natToDigits_digits m2 c h
    have hlen_le : (natToDigits m2).length ≤ k :=
      natToDigits_length_le (Nat.mod_lt _ (Nat.pos_of_ne_zero h10k)) hk1
    have hfs_len : fs.length = k := by
      rw [hfs_def, List.length_append, List.length_replicate]
      omega
    have hfs_ne : fs ≠ [] := by
      intro hcon
      have h2 := congrArg List.length hcon
      rw [hfs_len] at h2
      simp at h2
      omega
    have hfs_val : natOfDigits fs = m2 := by
      rw [hfs_def, natOfDigits_replicate_zero, natOfDigits_natToDigits]
    have hdata : (ratToJsonString q).data =
        (if q.num < 0 then ['-'] else []) ++
          (natToDigits (scaled / 10 ^ k) ++ '.' :: fs) := by
      rw [ratToJsonString, if_neg hden, hpk]
      show ((if q.num < 0 then "-" else "") ++ natToString (scaled / 10 ^ k) ++ "." ++
        padLeftZeros (natToString m2) k).data = _
      simp only [String.data_append]
      rw [data_sign]
      show _ ++ natToDigits (scaled / 10 ^ k) ++ ['.'] ++
        (List.replicate (k - (natToDigits m2).length) '0' ++ natToDigits m2) = _
      rw [← hfs_def]
      simp [List.append_assoc]
    have hmag : (natOfDigits (natToDigits (scaled / 10 ^ k)) : Rat) +
        (natOfDigits fs : Rat) / tenPow fs.length = (q.num.natAbs : Rat) / (q.den : Rat) := by
      rw [natOfDigits_natToDigits, hfs_val, hfs_len]
      have ht : tenPow k = (((10 : Nat) ^ k : Nat) : Rat) := rfl
      rw [ht, nat_div_add_mod_cast scaled (10 ^ k) h10k]
      have h10q : (((10 : Nat) ^ k : Nat) : Rat) ≠ 0 := Nat.cast_ne_zero.mpr h10k
      rw [div_eq_div_iff h10q hdenq]
      exact_mod_cast congrArg (fun n : Nat => (n : Rat)) hscaled
    rw [hdata]
    by_cases hneg : q.num < 0
    · simp only [hneg, if_true, List.cons_append, List.nil_append]
      rw [show (natToDigits (scaled / 10 ^ k) ++ '.' :: fs) ++ rest =
        natToDigits (scaled / 10 ^ k) ++ '.' :: (fs ++ rest) by simp]
      rw [show parseNumber ('-' :: (natToDigits (scaled / 10 ^ k) ++ '.' :: (fs ++ rest))) =
        parseNumberTail true (natToDigits (scaled / 10 ^ k) ++ '.' :: (fs ++ rest)) from rfl]
      rw [parseNumberTail_frac true _ fs rest (natToDigits_digits _) (natToDigits_ne_nil _)
        hfs_digits hfs_ne hrest]
      have hv : -((natOfDigits (natToDigits (scaled / 10 ^ k)) : Rat) +
          (natOfDigits fs : Rat) / tenPow fs.length) = q := by
        rw [hmag, habs, abs_of_neg (show (q.num : Rat) < 0 by exact_mod_cast hneg)]
        rw [neg_div, neg_neg, Rat.num_div_den]
      rw [if_pos rfl, hv]
    · simp only [hneg, if_false, List.nil_append]
      rw [show (natToDigits (scaled / 10 ^ k) ++ '.' :: fs) ++ rest =
        natToDigits (scaled / 10 ^ k) ++ '.' :: (fs ++ rest) by simp]
      obtain ⟨d, ds2, hcons⟩ := List.exists_cons_of_ne_nil (natToDigits_ne_nil (scaled / 10 ^ k))
      have hd : isDigitChar d = true := by
        have h2 := natToDigits_digits (scaled / 10 ^ k)
        rw [hcons] at h2
        exact h2 d (by simp)
      rw [hcons, List.cons_append,
        parseNumber_cons_not_dash _ (digit_ne hd).2.2.2.2.2.2.2.1, ← List.cons_append, ← hcons]
      rw [parseNumberTail_frac false _ fs rest (natToDigits_digits _) (natToDigits_ne_nil _)
        hfs_digits hfs_ne hrest]
      have hv : (natOfDigits (natToDigits (scaled / 10 ^ k)) : Rat) +
          (natOfDigits fs : Rat) / tenPow fs.length = q := by
        rw [hmag, habs,
          abs_of_nonneg (show (0 : Rat) ≤ (q.num : Rat) by exact_mod_cast not_lt.mp hneg),
          Rat.num_div_den]
      rw [if_neg (by simp), hv]

/-! ## String escaping and parsing agree -/

theorem escList_cons (c : Char) (l : List Char) : escList (c :: l) = escChar c ++ escList l :=
  rfl

theorem escChar_length_ge (c : Char) : 1 ≤ (escChar c).length := by
  unfold escChar
  split_ifs <;> simp

theorem escList_length_ge (l : List Char) : l.length ≤ (escList l).length := by
  induction l with
  | nil => simp [escList]
  | cons c t ih =>
    rw [escList_cons, List.length_append, List.length_cons]
    have := escChar_length_ge c
    omega

theorem hexVal_hexDigitChar {x : Nat} (h : x < 16) : hexVal (hexDigitChar x) = some x := by
  interval_cases x <;> decide

theorem parseStringBody_escList (l : List Char) :
    ∀ (fuel : Nat) (rest : List Char), l.length + 1 ≤ fuel →
      parseStringBody fuel (escList l ++ '"' :: rest) = Except.ok (l, rest) := by
  induction l with
  | nil =>
    intro fuel rest hf
    obtain ⟨f, rfl⟩ : ∃ f, fuel = f + 1 := ⟨fuel - 1, by omega⟩
    simp [escList, parseStringBody]
  | cons c l ih =>
    intro fuel rest hf
    obtain ⟨f, rfl⟩ : ∃ f, fuel = f + 1 := ⟨fuel - 1, by omega⟩
    have hf2 : l.length + 1 ≤ f := by
      simp only [List.length_cons] at hf
      omega
    have hih := ih f rest hf2
    rw [escList_cons, List.append_assoc]
    by_cases h1 : c = '"'
    · subst h1
      simp [escChar, parseStringBody, escTable, hih]
    · by_cases h2 : c = '\\'
      · subst h2
        simp [escChar, parseStringBody, escTable, hih]
      · by_cases h3 : c = Char.ofNat 8
        · subst h3
          simp [escChar, parseStringBody, escTable, hih]
        · by_cases h4 : c = Char.ofNat 12
          · subst h4
            simp [escChar, parseStringBody, escTable, hih]
          · by_cases h5 : c = Char.ofNat 10
            · subst h5
              simp [escChar, parseStringBody, escTable, hih]
            · by_cases h6 : c = Char.ofNat 13
              · subst h6
                simp [escChar, parseStringBody, escTable, hih]
              · by_cases h7 : c = Char.ofNat 9
                · subst h7
                  simp [escChar, parseStringBody, escTable, hih]
                · by_cases h8 : c.toNat < 32
                  · -- rendered as a `\u00XY` escape
                    have hesc : escChar c = ['\\', 'u', '0', '0',
                        hexDigitChar (c.toNat / 16), hexDigitChar (c.toNat % 16)] := by
                      rw [escChar, if_neg h1, if_neg h2, if_neg h3, if_neg h4, if_neg h5,
                        if_neg h6, if_neg h7, if_pos h8]
                    have hhi : hexVal (hexDigitChar (c.toNat / 16)) = some (c.toNat / 16) :=
                      hexVal_hexDigitChar (by omega)
                    have hlo : hexVal (hexDigitChar (c.toNat % 16)) = some (c.toNat % 16) :=
                      hexVal_hexDigitChar (by omega)
                    have hn : ((0 * 16 + 0) * 16 + c.toNat / 16) * 16 + c.toNat % 16
                        = c.toNat := by omega
                    have hdm : c.toNat / 16 * 16 + c.toNat % 16 = c.toNat := by omega
                    have hs1 : ¬(55296 ≤ c.toNat ∧ c.toNat < 56320) := by omega
                    have hs2 : ¬(56320 ≤ c.toNat ∧ c.toNat < 57344) := by omega
                    have h0 : hexVal '0' = some 0 := by decide
                    rw [hesc]
                    simp only [List.cons_append, List.nil_append]
                    simp [parseStringBody, escTable, hex4, h0, hhi, hlo, hn, hdm, hs1, hs2,
                      hih, Char.ofNat_toNat]
                  · -- rendered raw
                    have hesc : escChar c = [c] := by
                      rw [escChar, if_neg h1, if_neg h2, if_neg h3, if_neg h4, if_neg h5,
                        if_neg h6, if_neg h7, if_neg h8]
                    rw [hesc]
                    simp only [List.cons_append, List.nil_append]
                    simp [parseStringBody, h1, h2, h8, hih]

/-! ## Whitespace and parser-input normalization -/

theorem skipWs_cons_ws {c : Char} (cs : List Char) (h : isWsChar c = true) :
    skipWs (c :: cs) = skipWs cs := by
  simp [skipWs, h]

theorem skipWs_cons_not_ws {c : Char} (cs : List Char) (h : isWsChar c = false) :
    skipWs (c :: cs) = c :: cs := by
  simp [skipWs, h]

theorem skipWs_replicate_space (n : Nat) (cs : List Char) :
    skipWs (List.replicate n ' ' ++ cs) = skipWs cs := by
  induction n with
  | zero => rfl
  | succ n ih => rw [List.replicate_succ, List.cons_append, skipWs_cons_ws _ (by decide), ih]

theorem skipWs_indent (n : Nat) (cs : List Char) :
    skipWs ((indentStr n).data ++ cs) = skipWs cs := by
  show skipWs (List.replicate (2 * n) ' ' ++ cs) = skipWs cs
  exact skipWs_replicate_space _ cs

theorem skipWs_newline (cs : List Char) : skipWs ('\n' :: cs) = skipWs cs :=
  skipWs_cons_ws cs (by decide)

theorem skipWs_idem (cs : List Char) : skipWs (skipWs cs) = skipWs cs := by
  induction cs with
  | nil => rfl
  | cons c t ih =>
    cases h : isWsChar c with
    | true =>
      rw [skipWs_cons_ws t h]
      exact ih
    | false => rw [skipWs_cons_not_ws t h, skipWs_cons_not_ws t h]

theorem parseValue_skipWs_congr {cs cs2 : List Char} (h : skipWs cs = skipWs cs2) :
    ∀ fuel, parseValue fuel cs = parseValue fuel cs2
  | 0 => rfl
  | fuel + 1 => by
    simp only [parseValue, h]

theorem parseElems_skipWs_congr {cs cs2 : List Char} (h : skipWs cs = skipWs cs2) :
    ∀ fuel, parseElems fuel cs = parseElems fuel cs2
  | 0 => rfl
  | fuel + 1 => by
    simp only [parseElems, parseValue_skipWs_congr h fuel]

theorem parseMembers_skipWs_congr {cs cs2 : List Char} (h : skipWs cs = skipWs cs2) :
    ∀ fuel, parseMembers fuel cs = parseMembers fuel cs2
  | 0 => rfl
  | fuel + 1 => by
    simp only [parseMembers, h]

/-! ## Heads of rendered values -/

theorem intToString_head (i : Int) :
    ∃ c cs, (intToString i).data = c :: cs ∧ (c = '-' ∨ isDigitChar c = true) := by
  unfold intToString
  by_cases h : i < 0
  · exact ⟨'-', natToDigits i.natAbs, by rw [if_pos h]; rfl, Or.inl rfl⟩
  · obtain ⟨d, ds, hcons⟩ := List.exists_cons_of_ne_nil (natToDigits_ne_nil i.natAbs)
    refine ⟨d, ds, ?_, Or.inr ?_⟩
    · rw [if_neg h]
      show natToDigits i.natAbs = d :: ds
      exact hcons
    · have h2 := natToDigits_digits i.natAbs
      rw [hcons] at h2
      exact h2 d (by simp)

theorem ratToJsonString_head (q : Rat) :
    ∃ c cs, (ratToJsonString q).data = c :: cs ∧ (c = '-' ∨ isDigitChar c = true) := by
  unfold ratToJsonString
  by_cases hden : q.den = 1
  · rw [if_pos hden]
    exact intToString_head q.num
  · rw [if_neg hden]
    cases hpk : pow10Exp q.den with
    | none => exact intToString_head q.num
    | some k =>
      by_cases h : q.num < 0
      · refine ⟨'-', ((natToDigits (q.num.natAbs * 10 ^ k / q.den / 10 ^ k) ++
          ('.' :: [])) ++ (padLeftZeros (natToString (q.num.natAbs * 10 ^ k / q.den % 10 ^ k))
            k).data), ?_, Or.inl rfl⟩
        show ((if q.num < 0 then "-" else "") ++ natToString (q.num.natAbs * 10 ^ k / q.den / 10 ^ k)
          ++ "." ++ padLeftZeros (natToString (q.num.natAbs * 10 ^ k / q.den % 10 ^ k)) k).data = _
        rw [if_pos h]
        rfl
      · obtain ⟨d, ds, hcons⟩ :=
          List.exists_cons_of_ne_nil (natToDigits_ne_nil (q.num.natAbs * 10 ^ k / q.den / 10 ^ k))
        have h2 := natToDigits_digits (q.num.natAbs * 10 ^ k / q.den / 10 ^ k)
        rw [hcons] at h2
        refine ⟨d, (ds ++ ('.' :: [])) ++
          (padLeftZeros (natToString (q.num.natAbs * 10 ^ k / q.den % 10 ^ k)) k).data, ?_,
          Or.inr (h2 d (by simp))⟩
        show ((if q.num < 0 then "-" else "") ++
          natToString (q.num.natAbs * 10 ^ k / q.den / 10 ^ k) ++ "." ++
          padLeftZeros (natToString (q.num.natAbs * 10 ^ k / q.den % 10 ^ k)) k).data = _
        rw [if_neg h]
        show ((natToDigits (q.num.natAbs * 10 ^ k / q.den / 10 ^ k) ++ ('.' :: [])) ++
          (padLeftZeros (natToString (q.num.natAbs * 10 ^ k / q.den % 10 ^ k)) k).data :
            List Char) = _
        rw [hcons]
        rfl

theorem digit_head_facts {c : Char} (h : c = '-' ∨ isDigitChar c = true) :
    isWsChar c = false ∧ c ≠ ']' := by
  rcases h with rfl | h
  · exact ⟨by decide, by decide⟩
  · obtain ⟨-, -, -, -, -, -, h7, -, -, h10⟩ := digit_ne h
    exact ⟨h10, h7⟩

theorem renderPretty_head (ind : Nat) (j : Json) :
    ∃ c cs, (renderPretty ind j).data = c :: cs ∧ isWsChar c = false ∧ c ≠ ']' := by
  cases j with
  | null =>
    rw [show renderPretty ind Json.null = "null" from by simp [renderPretty]]
    exact ⟨'n', _, rfl, by decide, by decide⟩
  | bool b =>
    cases b with
    | true =>
      rw [show renderPretty ind (Json.bool true) = "true" from by simp [renderPretty]]
      exact ⟨'t', _, rfl, by decide, by decide⟩
    | false =>
      rw [show renderPretty ind (Json.bool false) = "false" from by simp [renderPretty]]
      exact ⟨'f', _, rfl, by decide, by decide⟩
  | num q =>
    obtain ⟨c, cs, hd, hc⟩ := ratToJsonString_head q
    obtain ⟨hws, hne⟩ := digit_head_facts hc
    refine ⟨c, cs, ?_, hws, hne⟩
    rw [show renderPretty ind (Json.num q) = ratToJsonString q from by simp [renderPretty]]
    exact hd
  | str s =>
    rw [show renderPretty ind (Json.str s) = "\"" ++ escapeJsonString s ++ "\"" from by
      simp [renderPretty]]
    exact ⟨'"', _, rfl, by decide, by decide⟩
  | arr l =>
    cases l with
    | nil =>
      rw [show renderPretty ind (Json.arr []) = "[]" from by simp [renderPretty]]
      exact ⟨'[', _, rfl, by decide, by decide⟩
    | cons x xs =>
      rw [show renderPretty ind (Json.arr (x :: xs)) =
        "[\n" ++ renderItems (ind + 1) x xs ++ "\n" ++ indentStr ind ++ "]" from by
        simp [renderPretty]]
      exact ⟨'[', _, rfl, by decide, by decide⟩
  | obj l =>
    cases l with
    | nil =>
      rw [show renderPretty ind (Json.obj []) = "\x7b\x7d" from by simp [renderPretty]]
      exact ⟨lbrace, _, rfl, by decide, by decide⟩
    | cons kv kvs =>
      rw [show renderPretty ind (Json.obj (kv :: kvs)) =
        "\x7b\n" ++ renderMembers (ind + 1) kv kvs ++ "\n" ++ indentStr ind ++ "\x7d" from by
        simp [renderPretty]]
      exact ⟨lbrace, _, rfl, by decide, by decide⟩

/-! ## Rendered shapes as character lists -/

theorem string_mk_data (s : String) : String.mk s.data = s := rfl

theorem jsonSize_pos (j : Json) : 1 ≤ jsonSize j := by
  cases j with
  | arr l => cases l <;> simp [jsonSize] <;> omega
  | obj l => cases l <;> simp [jsonSize] <;> omega
  | null => simp [jsonSize]
  | bool b => simp [jsonSize]
  | num q => simp [jsonSize]
  | str s => simp [jsonSize]

theorem itemsSize_pos (x : Json) (xs : List Json) : 1 ≤ itemsSize x xs := by
  cases xs <;> simp [itemsSize] <;> omega

theorem membersSize_pos (kv : String × Json) (kvs : List (String × Json)) :
    1 ≤ membersSize kv kvs := by
  obtain ⟨k, v⟩ := kv
  cases kvs <;> simp [membersSize] <;> omega

theorem renderItems_nil_data_append (ind : Nat) (x : Json) (T : List Char) :
    (renderItems ind x []).data ++ T =
      (indentStr ind).data ++ ((renderPretty ind x).data ++ T) := by
  rw [show renderItems ind x [] = indentStr ind ++ renderPretty ind x from by simp [renderItems]]
  show ((indentStr ind).data ++ (renderPretty ind x).data) ++ T = _
  simp [List.append_assoc]

theorem renderItems_cons_data_append (ind : Nat) (x y : Json) (ys : List Json) (T : List Char) :
    (renderItems ind x (y :: ys)).data ++ T =
      (indentStr ind).data ++ ((renderPretty ind x).data ++
        (',' :: '\n' :: ((renderItems ind y ys).data ++ T))) := by
  rw [show renderItems ind x (y :: ys) =
    indentStr ind ++ renderPretty ind x ++ ",\n" ++ renderItems ind y ys from by
    simp [renderItems]]
  show ((((indentStr ind).data ++ (renderPretty ind x).data) ++ [',', '\n']) ++
    (renderItems ind y ys).data) ++ T = _
  simp [List.append_assoc]

theorem renderMembers_nil_data_append (ind : Nat) (k : String) (v : Json) (T : List Char) :
    (renderMembers ind (k, v) []).data ++ T =
      (indentStr ind).data ++ ('"' :: (escList k.data ++
        ('"' :: ':' :: ' ' :: ((renderPretty ind v).data ++ T)))) := by
  rw [show renderMembers ind (k, v) [] =
    indentStr ind ++ "\"" ++ escapeJsonString k ++ "\": " ++ renderPretty ind v from by
    simp [renderMembers]]
  show ((((indentStr ind).data ++ ['"']) ++ escList k.data) ++ ['"', ':', ' '] ++
    (renderPretty ind v).data) ++ T = _
  simp [List.append_assoc]

theorem renderMembers_cons_data_append (ind : Nat) (k : String) (v : Json)
    (kv2 : String × Json) (kvs2 : List (String × Json)) (T : List Char) :
    (renderMembers ind (k, v) (kv2 :: kvs2)).data ++ T =
      (indentStr ind).data ++ ('"' :: (escList k.data ++
        ('"' :: ':' :: ' ' :: ((renderPretty ind v).data ++
          (',' :: '\n' :: ((renderMembers ind kv2 kvs2).data ++ T)))))) := by
  rw [show renderMembers ind (k, v) (kv2 :: kvs2) =
    indentStr ind ++ "\"" ++ escapeJsonString k ++ "\": " ++ renderPretty ind v ++ ",\n" ++
      renderMembers ind kv2 kvs2 from by
    simp [renderMembers]]
  show ((((((indentStr ind).data ++ ['"']) ++ escList k.data) ++ ['"', ':', ' '] ++
    (renderPretty ind v).data) ++ [',', '\n']) ++ (renderMembers ind kv2 kvs2).data) ++ T = _
  simp [List.append_assoc]

theorem renderArr_cons_data_append (ind : Nat) (x : Json) (xs : List Json) (rest : List Char) :
    (renderPretty ind (Json.arr (x :: xs))).data ++ rest =
      '[' :: '\n' :: ((renderItems (ind + 1) x xs).data ++
        ('\n' :: ((indentStr ind).data ++ (']' :: rest)))) := by
  rw [show renderPretty ind (Json.arr (x :: xs)) =
    "[\n" ++ renderItems (ind + 1) x xs ++ "\n" ++ indentStr ind ++ "]" from by
    simp [renderPretty]]
  show ((((['[', '\n'] ++ (renderItems (ind + 1) x xs).data) ++ ['\n']) ++
    (indentStr ind).data) ++ [']']) ++ rest = _
  simp [List.append_assoc]

theorem renderObj_cons_data_append (ind : Nat) (kv : String × Json)
    (kvs : List (String × Json)) (rest : List Char) :
    (renderPretty ind (Json.obj (kv :: kvs))).data ++ rest =
      lbrace :: '\n' :: ((renderMembers (ind + 1) kv kvs).data ++
        ('\n' :: ((indentStr ind).data ++ (rbrace :: rest)))) := by
  rw [show renderPretty ind (Json.obj (kv :: kvs)) =
    "\x7b\n" ++ renderMembers (ind + 1) kv kvs ++ "\n" ++ indentStr ind ++ "\x7d" from by
    simp [renderPretty]]
  show (((([lbrace, '\n'] ++ (renderMembers (ind + 1) kv kvs).data) ++ ['\n']) ++
    (indentStr ind).data) ++ [rbrace]) ++ rest = _
  simp [List.append_assoc]

theorem renderStr_data_append (ind : Nat) (s : String) (rest : List Char) :
    (renderPretty ind (Json.str s)).data ++ rest =
      '"' :: (escList s.data ++ ('"' :: rest)) := by
  rw [show renderPretty ind (Json.str s) = "\"" ++ escapeJsonString s ++ "\"" from by
    simp [renderPretty]]
  show (('"' :: escList s.data) ++ ['"']) ++ rest = _
  simp [List.append_assoc]

/-! ## Heads of rendered item and member lists, after whitespace -/

theorem skipWs_renderItems_head (ind : Nat) (x : Json) (xs : List Json) (cs : List Char) :
    ∃ c Z, skipWs ((renderItems ind x xs).data ++ cs) = c :: Z ∧ c ≠ ']' ∧
      skipWs (c :: Z) = c :: Z := by
  obtain ⟨c0, cs0, hxd, hws0, hne0⟩ := renderPretty_head ind x
  cases xs with
  | nil =>
    refine ⟨c0, cs0 ++ cs, ?_, hne0, skipWs_cons_not_ws _ hws0⟩
    rw [renderItems_nil_data_append, skipWs_indent, hxd, List.cons_append,
      skipWs_cons_not_ws _ hws0]
  | cons y ys =>
    refine ⟨c0, cs0 ++ (',' :: '\n' :: ((renderItems ind y ys).data ++ cs)), ?_, hne0,
      skipWs_cons_not_ws _ hws0⟩
    rw [renderItems_cons_data_append, skipWs_indent, hxd, List.cons_append,
      skipWs_cons_not_ws _ hws0]

theorem skipWs_renderMembers_head (ind : Nat) (kv : String × Json)
    (kvs : List (String × Json)) (cs : List Char) :
    ∃ Z, skipWs ((renderMembers ind kv kvs).data ++ cs) = '"' :: Z := by
  obtain ⟨k, v⟩ := kv
  cases kvs with
  | nil =>
    refine ⟨escList k.data ++ ('"' :: ':' :: ' ' :: ((renderPretty ind v).data ++ cs)), ?_⟩
    rw [renderMembers_nil_data_append, skipWs_indent, skipWs_cons_not_ws _ (by decide)]
  | cons kv2 kvs2 =>
    refine ⟨escList k.data ++ ('"' :: ':' :: ' ' :: ((renderPretty ind v).data ++
      (',' :: '\n' :: ((renderMembers ind kv2 kvs2).data ++ cs)))), ?_⟩
    rw [renderMembers_cons_data_append, skipWs_indent, skipWs_cons_not_ws _ (by decide)]

/-! ## The parse fuel `2 * length + 2` dominates `jsonSize` -/

mutual

theorem jsonSize_le_render : ∀ (ind : Nat) (j : Json),
    jsonSize j ≤ ((renderPretty ind j).data).length
  | ind, Json.null => by
    rw [show renderPretty ind Json.null = "null" from by simp [renderPretty]]
    simp [jsonSize]
  | ind, Json.bool true => by
    rw [show renderPretty ind (Json.bool true) = "true" from by simp [renderPretty]]
    simp [jsonSize]
  | ind, Json.bool false => by
    rw [show renderPretty ind (Json.bool false) = "false" from by simp [renderPretty]]
    simp [jsonSize]
  | ind, Json.num q => by
    rw [show renderPretty ind (Json.num q) = ratToJsonString q from by simp [renderPretty]]
    obtain ⟨c, cs, hd, -⟩ := ratToJsonString_head q
    rw [hd]
    simp [jsonSize]
  | ind, Json.str s => by
    rw [show renderPretty ind (Json.str s) = "\"" ++ escapeJsonString s ++ "\"" from by
      simp [renderPretty]]
    show jsonSize (Json.str s) ≤ ((('"' :: escList s.data) ++ ['"']).length)
    simp [jsonSize]
  | ind, Json.arr [] => by
    rw [show renderPretty ind (Json.arr []) = "[]" from by simp [renderPretty]]
    simp [jsonSize]
  | ind, Json.arr (x :: xs) => by
    have ih := itemsSize_le_render (ind + 1) x xs
    rw [show renderPretty ind (Json.arr (x :: xs)) =
      "[\n" ++ renderItems (ind + 1) x xs ++ "\n" ++ indentStr ind ++ "]" from by
      simp [renderPretty]]
    show jsonSize (Json.arr (x :: xs)) ≤
      (((((['[', '\n'] ++ (renderItems (ind + 1) x xs).data) ++ ['\n']) ++
        (indentStr ind).data) ++ [']']).length)
    rw [show jsonSize (Json.arr (x :: xs)) = 1 + itemsSize x xs from by simp [jsonSize]]
    simp only [List.length_append, List.length_cons, List.length_nil]
    omega
  | ind, Json.obj [] => by
    rw [show renderPretty ind (Json.obj []) = "\x7b\x7d" from by simp [renderPretty]]
    simp [jsonSize]
  | ind, Json.obj (kv :: kvs) => by
    have ih := membersSize_le_render (ind + 1) kv kvs
    rw [show renderPretty ind (Json.obj (kv :: kvs)) =
      "\x7b\n" ++ renderMembers (ind + 1) kv kvs ++ "\n" ++ indentStr ind ++ "\x7d" from by
      simp [renderPretty]]
    show jsonSize (Json.obj (kv :: kvs)) ≤
      ((((([lbrace, '\n'] ++ (renderMembers (ind + 1) kv kvs).data) ++ ['\n']) ++
        (indentStr ind).data) ++ [rbrace]).length)
    rw [show jsonSize (Json.obj (kv :: kvs)) = 1 + membersSize kv kvs from by simp [jsonSize]]
    simp only [List.length_append, List.length_cons, List.length_nil]
    omega
termination_by ind j => sizeOf j

theorem itemsSize_le_render : ∀ (ind : Nat) (x : Json) (xs : List Json),
    itemsSize x xs ≤ ((renderItems ind x xs).data).length + 3
  | ind, x, [] => by
    have ih := jsonSize_le_render ind x
    rw [show renderItems ind x [] = indentStr ind ++ renderPretty ind x from by
      simp [renderItems]]
    show itemsSize x [] ≤ (((indentStr ind).data ++ (renderPretty ind x).data).length) + 3
    rw [show itemsSize x [] = 1 + jsonSize x from by simp [itemsSize]]
    simp only [List.length_append]
    omega
  | ind, x, y :: ys => by
    have ih1 := jsonSize_le_render ind x
    have ih2 := itemsSize_le_render ind y ys
    rw [show renderItems ind x (y :: ys) =
      indentStr ind ++ renderPretty ind x ++ ",\n" ++ renderItems ind y ys from by
      simp [renderItems]]
    show itemsSize x (y :: ys) ≤
      (((((indentStr ind).data ++ (renderPretty ind x).data) ++ [',', '\n']) ++
        (renderItems ind y ys).data).length) + 3
    rw [show itemsSize x (y :: ys) = 1 + jsonSize x + itemsSize y ys from by simp [itemsSize]]
    simp only [List.length_append, List.length_cons, List.length_nil]
    omega
termination_by ind x xs => sizeOf x + sizeOf xs

theorem membersSize_le_render : ∀ (ind : Nat) (kv : String × Json)
    (kvs : List (String × Json)),
    membersSize kv kvs ≤ ((renderMembers ind kv kvs).data).length + 3
  | ind, (k, v), [] => by
    have ih := jsonSize_le_render ind v
    rw [show renderMembers ind (k, v) [] =
      indentStr ind ++ "\"" ++ escapeJsonString k ++ "\": " ++ renderPretty ind v from by
      simp [renderMembers]]
    show membersSize (k, v) [] ≤
      (((((indentStr ind).data ++ ['"']) ++ escList k.data) ++ ['"', ':', ' '] ++
        (renderPretty ind v).data).length) + 3
    rw [show membersSize (k, v) [] = 1 + jsonSize v from by simp [membersSize]]
    simp only [List.length_append, List.length_cons, List.length_nil]
    omega
  | ind, (k, v), kv2 :: kvs2 => by
    have ih1 := jsonSize_le_render ind v
    have ih2 := membersSize_le_render ind kv2 kvs2
    rw [show renderMembers ind (k, v) (kv2 :: kvs2) =
      indentStr ind ++ "\"" ++ escapeJsonString k ++ "\": " ++ renderPretty ind v ++ ",\n" ++
        renderMembers ind kv2 kvs2 from by
      simp [renderMembers]]
    show membersSize (k, v) (kv2 :: kvs2) ≤
      (((((((indentStr ind).data ++ ['"']) ++ escList k.data) ++ ['"', ':', ' '] ++
        (renderPretty ind v).data) ++ [',', '\n']) ++
          (renderMembers ind kv2 kvs2).data).length) + 3
    rw [show membersSize (k, v) (kv2 :: kvs2) = 1 + jsonSize v + membersSize kv2 kvs2 from by
      simp [membersSize]]
    simp only [List.length_append, List.length_cons, List.length_nil]
    omega
termination_by ind kv kvs => sizeOf kv + sizeOf kvs

end

/-! ## Parsing inverts pretty printing -/

theorem printableItems_cons {x : Json} {xs : List Json} (h : PrintableItems (x :: xs)) :
    Printable x ∧ PrintableItems xs := by
  simpa [PrintableItems] using h

theorem printableMembers_cons {kv : String × Json} {kvs : List (String × Json)}
    (h : PrintableMembers (kv :: kvs)) : Printable kv.2 ∧ PrintableMembers kvs := by
  obtain ⟨k, v⟩ := kv
  simpa [PrintableMembers] using h

theorem parse_render (fuel : Nat) :
    (∀ (ind : Nat) (j : Json) (rest : List Char), Printable j → jsonSize j ≤ fuel →
      goodRest rest →
      parseValue fuel ((renderPretty ind j).data ++ rest) = Except.ok (j, rest)) ∧
    (∀ (ind1 ind2 : Nat) (x : Json) (xs : List Json) (rest : List Char),
      Printable x → PrintableItems xs → itemsSize x xs ≤ fuel →
      parseElems fuel ((renderItems ind1 x xs).data ++
        '\n' :: ((indentStr ind2).data ++ ']' :: rest)) = Except.ok (x :: xs, rest)) ∧
    (∀ (ind1 ind2 : Nat) (kv : String × Json) (kvs : List (String × Json)) (rest : List Char),
      Printable kv.2 → PrintableMembers kvs → membersSize kv kvs ≤ fuel →
      parseMembers fuel ((renderMembers ind1 kv kvs).data ++
        '\n' :: ((indentStr ind2).data ++ rbrace :: rest)) = Except.ok (kv :: kvs, rest)) := by
  induction fuel with
  | zero =>
    refine ⟨?_, ?_, ?_⟩
    · intro ind j rest hp hsz hrest
      exact absurd hsz (by have := jsonSize_pos j; omega)
    · intro ind1 ind2 x xs rest hpx hpxs hsz
      exact absurd hsz (by have := itemsSize_pos x xs; omega)
    · intro ind1 ind2 kv kvs rest hpv hpkvs hsz
      exact absurd hsz (by have := membersSize_pos kv kvs; omega)
  | succ fuel ih =>
    obtain ⟨ihV, ihE, ihM⟩ := ih
    refine ⟨?_, ?_, ?_⟩
    · intro ind j rest hp hsz hrest
      cases j with
      | null =>
        rw [show renderPretty ind Json.null = "null" from by simp [renderPretty]]
        show parseValue (fuel + 1) ('n' :: 'u' :: 'l' :: 'l' :: rest) =
          Except.ok (Json.null, rest)
        simp [parseValue, skipWs, isWsChar, expectLit, List.isPrefixOf]
      | bool b =>
        cases b with
        | true =>
          rw [show renderPretty ind (Json.bool true) = "true" from by simp [renderPretty]]
          show parseValue (fuel + 1) ('t' :: 'r' :: 'u' :: 'e' :: rest) =
            Except.ok (Json.bool true, rest)
          simp [parseValue, skipWs, isWsChar, expectLit, List.isPrefixOf]
        | false =>
          rw [show renderPretty ind (Json.bool false) = "false" from by simp [renderPretty]]
          show parseValue (fuel + 1) ('f' :: 'a' :: 'l' :: 's' :: 'e' :: rest) =
            Except.ok (Json.bool false, rest)
          simp [parseValue, skipWs, isWsChar, expectLit, List.isPrefixOf]
      | num q =>
        simp only [Printable] at hp
        obtain ⟨c, cs, hd, hc⟩ := ratToJsonString_head q
        obtain ⟨hws, -⟩ := digit_head_facts hc
        rw [show renderPretty ind (Json.num q) = ratToJsonString q from by simp [renderPretty]]
        have hpn := parseNumber_render q rest hp hrest
        rw [hd] at hpn ⊢
        rw [List.cons_append] at hpn ⊢
        have hsk : skipWs (c :: (cs ++ rest)) = c :: (cs ++ rest) :=
          skipWs_cons_not_ws _ hws
        rcases hc with rfl | hdig
        · simp only [parseValue, hsk]
          rw [if_neg (by decide : ¬('-' : Char) = 'n'), if_neg (by decide : ¬('-' : Char) = 't'),
            if_neg (by decide : ¬('-' : Char) = 'f'), if_neg (by decide : ¬('-' : Char) = '"'),
            if_neg (by decide : ¬('-' : Char) = '['), if_neg (by decide : ¬('-' : Char) = lbrace),
            if_pos (show (decide True || isDigitChar '-') = true from by decide)]
          rw [hpn]
        · obtain ⟨hn1, hn2, hn3, hn4, hn5, hn6, -, -, -, -⟩ := digit_ne hdig
          simp only [parseValue, hsk]
          rw [if_neg hn1, if_neg hn2, if_neg hn3, if_neg hn4, if_neg hn5, if_neg hn6,
            if_pos (show (decide (c = '-') || isDigitChar c) = true from by
              rw [hdig, Bool.or_true])]
          rw [hpn]
      | str s =>
        rw [renderStr_data_append]
        have hsk : skipWs ('"' :: (escList s.data ++ ('"' :: rest))) =
            '"' :: (escList s.data ++ ('"' :: rest)) := skipWs_cons_not_ws _ (by decide)
        have hsb := parseStringBody_escList s.data
          ((escList s.data ++ ('"' :: rest)).length + 1) rest
          (by have := escList_length_ge s.data
              simp only [List.length_append, List.length_cons]
              omega)
        simp only [parseValue, hsk]
        rw [if_neg (by decide : ¬('"' : Char) = 'n'), if_neg (by decide : ¬('"' : Char) = 't'),
          if_neg (by decide : ¬('"' : Char) = 'f'), if_pos trivial]
        rw [hsb]
      | arr l =>
        cases l with
        | nil =>
          rw [show renderPretty ind (Json.arr []) = "[]" from by simp [renderPretty]]
          show parseValue (fuel + 1) ('[' :: ']' :: rest) = Except.ok (Json.arr [], rest)
          simp [parseValue, skipWs, isWsChar]
        | cons x xs =>
          simp only [Printable] at hp
          obtain ⟨hpx, hpxs⟩ := printableItems_cons hp
          rw [show jsonSize (Json.arr (x :: xs)) = 1 + itemsSize x xs from by
            simp [jsonSize]] at hsz
          rw [renderArr_cons_data_append]
          obtain ⟨c0, Z, hhead, hne0, hskipZ⟩ := skipWs_renderItems_head (ind + 1) x xs
            ('\n' :: ((indentStr ind).data ++ (']' :: rest)))
          have hpe : parseElems fuel (c0 :: Z) = Except.ok (x :: xs, rest) := by
            rw [parseElems_skipWs_congr (hskipZ.trans hhead.symm) fuel]
            exact ihE (ind + 1) ind x xs rest hpx hpxs (by omega)
          have hsk0 : skipWs ('[' :: '\n' :: ((renderItems (ind + 1) x xs).data ++
              ('\n' :: ((indentStr ind).data ++ (']' :: rest))))) =
              '[' :: '\n' :: ((renderItems (ind + 1) x xs).data ++
                ('\n' :: ((indentStr ind).data ++ (']' :: rest)))) :=
            skipWs_cons_not_ws _ (by decide)
          have hsk1 : skipWs ('\n' :: ((renderItems (ind + 1) x xs).data ++
              ('\n' :: ((indentStr ind).data ++ (']' :: rest))))) = c0 :: Z := by
            rw [skipWs_newline]
            exact hhead
          simp only [parseValue, hsk0]
          rw [if_neg (by decide : ¬('[' : Char) = 'n'), if_neg (by decide : ¬('[' : Char) = 't'),
            if_neg (by decide : ¬('[' : Char) = 'f'), if_neg (by decide : ¬('[' : Char) = '"'),
            if_pos trivial]
          rw [hsk1]
          split
          · rename_i r heq
            injection heq with h1 h2
            exact absurd h1 hne0
          · rw [hpe]
      | obj l =>
        cases l with
        | nil =>
          rw [show renderPretty ind (Json.obj []) = "\x7b\x7d" from by simp [renderPretty]]
          show parseValue (fuel + 1) (lbrace :: rbrace :: rest) = Except.ok (Json.obj [], rest)
          have hsk : skipWs (lbrace :: rbrace :: rest) = lbrace :: rbrace :: rest :=
            skipWs_cons_not_ws _ (by decide)
          have hsk2 : skipWs (rbrace :: rest) = rbrace :: rest :=
            skipWs_cons_not_ws _ (by decide)
          simp only [parseValue, hsk]
          rw [if_neg (by decide : ¬lbrace = 'n'), if_neg (by decide : ¬lbrace = 't'),
            if_neg (by decide : ¬lbrace = 'f'), if_neg (by decide : ¬lbrace = '"'),
            if_neg (by decide : ¬lbrace = '['), if_pos trivial]
          rw [hsk2]
          simp
        | cons kv kvs =>
          simp only [Printable] at hp
          obtain ⟨hpv2, hpkvs⟩ := printableMembers_cons hp
          rw [show jsonSize (Json.obj (kv :: kvs)) = 1 + membersSize kv kvs from by
            simp [jsonSize]] at hsz
          rw [renderObj_cons_data_append]
          obtain ⟨Z, hhead⟩ := skipWs_renderMembers_head (ind + 1) kv kvs
            ('\n' :: ((indentStr ind).data ++ (rbrace :: rest)))
          have hpm : parseMembers fuel ('"' :: Z) = Except.ok (kv :: kvs, rest) := by
            rw [parseMembers_skipWs_congr
              ((skipWs_cons_not_ws _ (by decide)).trans hhead.symm) fuel]
            exact ihM (ind + 1) ind kv kvs rest hpv2 hpkvs (by omega)
          have hsk0 : skipWs (lbrace :: '\n' :: ((renderMembers (ind + 1) kv kvs).data ++
              ('\n' :: ((indentStr ind).data ++ (rbrace :: rest))))) =
              lbrace :: '\n' :: ((renderMembers (ind + 1) kv kvs).data ++
                ('\n' :: ((indentStr ind).data ++ (rbrace :: rest)))) :=
            skipWs_cons_not_ws _ (by decide)
          have hsk1 : skipWs ('\n' :: ((renderMembers (ind + 1) kv kvs).data ++
              ('\n' :: ((indentStr ind).data ++ (rbrace :: rest))))) = '"' :: Z := by
            rw [skipWs_newline]
            exact hhead
          simp only [parseValue, hsk0]
          rw [if_neg (by decide : ¬lbrace = 'n'), if_neg (by decide : ¬lbrace = 't'),
            if_neg (by decide : ¬lbrace = 'f'), if_neg (by decide : ¬lbrace = '"'),
            if_neg (by decide : ¬lbrace = '['), if_pos trivial]
          rw [hsk1]
          simp only []
          rw [if_neg (by decide : ¬('"' : Char) = rbrace)]
          rw [hpm]
    · intro ind1 ind2 x xs rest hpx hpxs hsz
      cases xs with
      | nil =>
        rw [show itemsSize x [] = 1 + jsonSize x from by simp [itemsSize]] at hsz
        have h1 := renderItems_nil_data_append ind1 x
          ('\n' :: ((indentStr ind2).data ++ ']' :: rest))
        have hpv : parseValue fuel ((renderItems ind1 x []).data ++
            '\n' :: ((indentStr ind2).data ++ ']' :: rest)) =
            Except.ok (x, '\n' :: ((indentStr ind2).data ++ ']' :: rest)) := by
          rw [parseValue_skipWs_congr (show _ = skipWs ((renderPretty ind1 x).data ++
            ('\n' :: ((indentStr ind2).data ++ ']' :: rest))) from by
            rw [h1, skipWs_indent]) fuel]
          exact ihV ind1 x _ hpx (by omega)
            ⟨by decide, by decide, by decide, by decide⟩
        have hsT : skipWs ('\n' :: ((indentStr ind2).data ++ ']' :: rest)) = ']' :: rest := by
          rw [skipWs_newline, skipWs_indent, skipWs_cons_not_ws _ (by decide)]
        simp only [parseElems, hpv, hsT]
      | cons y ys =>
        rw [show itemsSize x (y :: ys) = 1 + jsonSize x + itemsSize y ys from by
          simp [itemsSize]] at hsz
        have hjx := jsonSize_pos x
        obtain ⟨hpy, hpys⟩ := printableItems_cons hpxs
        have h1 := renderItems_cons_data_append ind1 x y ys
          ('\n' :: ((indentStr ind2).data ++ ']' :: rest))
        have hpv : parseValue fuel ((renderItems ind1 x (y :: ys)).data ++
            '\n' :: ((indentStr ind2).data ++ ']' :: rest)) =
            Except.ok (x, ',' :: '\n' :: ((renderItems ind1 y ys).data ++
              ('\n' :: ((indentStr ind2).data ++ ']' :: rest)))) := by
          rw [parseValue_skipWs_congr (show _ = skipWs ((renderPretty ind1 x).data ++
            (',' :: '\n' :: ((renderItems ind1 y ys).data ++
              ('\n' :: ((indentStr ind2).data ++ ']' :: rest))))) from by
            rw [h1, skipWs_indent]) fuel]
          exact ihV ind1 x _ hpx (by omega)
            ⟨by decide, by decide, by decide, by decide⟩
        have hsT : skipWs (',' :: '\n' :: ((renderItems ind1 y ys).data ++
            ('\n' :: ((indentStr ind2).data ++ ']' :: rest)))) =
            ',' :: ('\n' :: ((renderItems ind1 y ys).data ++
              ('\n' :: ((indentStr ind2).data ++ ']' :: rest)))) :=
          skipWs_cons_not_ws _ (by decide)
        have hpe2 : parseElems fuel ('\n' :: ((renderItems ind1 y ys).data ++
            ('\n' :: ((indentStr ind2).data ++ ']' :: rest)))) =
            Except.ok (y :: ys, rest) := by
          rw [parseElems_skipWs_congr (skipWs_newline _) fuel]
          exact ihE ind1 ind2 y ys rest hpy hpys (by omega)
        simp only [parseElems, hpv, hsT, hpe2]
    · intro ind1 ind2 kv kvs rest hpv0 hpkvs hsz
      obtain ⟨k, v⟩ := kv
      cases kvs with
      | nil =>
        rw [show membersSize (k, v) [] = 1 + jsonSize v from by simp [membersSize]] at hsz
        have h1 := renderMembers_nil_data_append ind1 k v
          ('\n' :: ((indentStr ind2).data ++ rbrace :: rest))
        have hs0 : skipWs ((renderMembers ind1 (k, v) []).data ++
            '\n' :: ((indentStr ind2).data ++ rbrace :: rest)) =
            '"' :: (escList k.data ++ ('"' :: ':' :: ' ' :: ((renderPretty ind1 v).data ++
              ('\n' :: ((indentStr ind2).data ++ rbrace :: rest))))) := by
          rw [h1, skipWs_indent, skipWs_cons_not_ws _ (by decide)]
        have hsb := parseStringBody_escList k.data
          ((escList k.data ++ ('"' :: ':' :: ' ' :: ((renderPretty ind1 v).data ++
            ('\n' :: ((indentStr ind2).data ++ rbrace :: rest))))).length + 1)
          (':' :: ' ' :: ((renderPretty ind1 v).data ++
            ('\n' :: ((indentStr ind2).data ++ rbrace :: rest))))
          (by have := escList_length_ge k.data
              simp only [List.length_append, List.length_cons]
              omega)
        have hs1 : skipWs (':' :: ' ' :: ((renderPretty ind1 v).data ++
            ('\n' :: ((indentStr ind2).data ++ rbrace :: rest)))) =
            ':' :: (' ' :: ((renderPretty ind1 v).data ++
              ('\n' :: ((indentStr ind2).data ++ rbrace :: rest)))) :=
          skipWs_cons_not_ws _ (by decide)
        have hpv : parseValue fuel (' ' :: ((renderPretty ind1 v).data ++
            ('\n' :: ((indentStr ind2).data ++ rbrace :: rest)))) =
            Except.ok (v, '\n' :: ((indentStr ind2).data ++ rbrace :: rest)) := by
          rw [parseValue_skipWs_congr (skipWs_cons_ws _ (by decide)) fuel]
          exact ihV ind1 v _ hpv0 (by omega)
            ⟨by decide, by decide, by decide, by decide⟩
        have hsT : skipWs ('\n' :: ((indentStr ind2).data ++ rbrace :: rest)) =
            rbrace :: rest := by
          rw [skipWs_newline, skipWs_indent, skipWs_cons_not_ws _ (by decide)]
        simp only [parseMembers, hs0, hsb, hs1, hpv, hsT]
        rw [if_neg (by decide : ¬rbrace = ','), if_pos trivial]
      | cons kv2 kvs2 =>
        rw [show membersSize (k, v) (kv2 :: kvs2) =
          1 + jsonSize v + membersSize kv2 kvs2 from by simp [membersSize]] at hsz
        have hjv := jsonSize_pos v
        obtain ⟨hpv2, hpkvs2⟩ := printableMembers_cons hpkvs
        have h1 := renderMembers_cons_data_append ind1 k v kv2 kvs2
          ('\n' :: ((indentStr ind2).data ++ rbrace :: rest))
        have hs0 : skipWs ((renderMembers ind1 (k, v) (kv2 :: kvs2)).data ++
            '\n' :: ((indentStr ind2).data ++ rbrace :: rest)) =
            '"' :: (escList k.data ++ ('"' :: ':' :: ' ' :: ((renderPretty ind1 v).data ++
              (',' :: '\n' :: ((renderMembers ind1 kv2 kvs2).data ++
                ('\n' :: ((indentStr ind2).data ++ rbrace :: rest))))))) := by
          rw [h1, skipWs_indent, skipWs_cons_not_ws _ (by decide)]
        have hsb := parseStringBody_escList k.data
          ((escList k.data ++ ('"' :: ':' :: ' ' :: ((renderPretty ind1 v).data ++
            (',' :: '\n' :: ((renderMembers ind1 kv2 kvs2).data ++
              ('\n' :: ((indentStr ind2).data ++ rbrace :: rest))))))).length + 1)
          (':' :: ' ' :: ((renderPretty ind1 v).data ++
            (',' :: '\n' :: ((renderMembers ind1 kv2 kvs2).data ++
              ('\n' :: ((indentStr ind2).data ++ rbrace :: rest))))))
          (by have := escList_length_ge k.data
              simp only [List.length_append, List.length_cons]
              omega)
        have hs1 : skipWs (':' :: ' ' :: ((renderPretty ind1 v).data ++
            (',' :: '\n' :: ((renderMembers ind1 kv2 kvs2).data ++
              ('\n' :: ((indentStr ind2).data ++ rbrace :: rest)))))) =
            ':' :: (' ' :: ((renderPretty ind1 v).data ++
              (',' :: '\n' :: ((renderMembers ind1 kv2 kvs2).data ++
                ('\n' :: ((indentStr ind2).data ++ rbrace :: rest)))))) :=
          skipWs_cons_not_ws _ (by decide)
        have hpv : parseValue fuel (' ' :: ((renderPretty ind1 v).data ++
            (',' :: '\n' :: ((renderMembers ind1 kv2 kvs2).data ++
              ('\n' :: ((indentStr ind2).data ++ rbrace :: rest)))))) =
            Except.ok (v, ',' :: '\n' :: ((renderMembers ind1 kv2 kvs2).data ++
              ('\n' :: ((indentStr ind2).data ++ rbrace :: rest)))) := by
          rw [parseValue_skipWs_congr (skipWs_cons_ws _ (by decide)) fuel]
          exact ihV ind1 v _ hpv0 (by omega)
            ⟨by decide, by decide, by decide, by decide⟩
        have hsT : skipWs (',' :: '\n' :: ((renderMembers ind1 kv2 kvs2).data ++
            ('\n' :: ((indentStr ind2).data ++ rbrace :: rest)))) =
            ',' :: ('\n' :: ((renderMembers ind1 kv2 kvs2).data ++
              ('\n' :: ((indentStr ind2).data ++ rbrace :: rest)))) :=
          skipWs_cons_not_ws _ (by decide)
        have hpm2 : parseMembers fuel ('\n' :: ((renderMembers ind1 kv2 kvs2).data ++
            ('\n' :: ((indentStr ind2).data ++ rbrace :: rest)))) =
            Except.ok (kv2 :: kvs2, rest) := by
          rw [parseMembers_skipWs_congr (skipWs_newline _) fuel]
          exact ihM ind1 ind2 kv2 kvs2 rest hpv2 hpkvs2 (by omega)
        simp only [parseMembers, hs0, hsb, hs1, hpv, hsT]
        rw [if_pos trivial]
        rw [hpm2]

/-! ## C3 -/

theorem person_roundtrip (p : Person) : Person.fromJson p.toJson = some p := by
  simp [Person.fromJson, Person.toJson, Json.lookup, List.lookup, Json.asStr]

theorem mapM_loop_persons (l acc : List Person) :
    List.mapM.loop Person.fromJson (l.map Person.toJson) acc = some (acc.reverse ++ l) := by
  induction l generalizing acc with
  | nil => simp [List.mapM.loop]
  | cons p t ih => simp [List.mapM.loop, person_roundtrip p, ih]

theorem persons_roundtrip (l : List Person) :
    (l.map Person.toJson).mapM Person.fromJson = some l := by
  show List.mapM.loop Person.fromJson (l.map Person.toJson) [] = some l
  simp [mapM_loop_persons]

theorem asU32_roundtrip (n : Nat) (h : n < 4294967296) :
    Json.asU32 (Json.num n) = some n := by
  simp only [Json.asU32, Rat.num_natCast, Int.toNat_ofNat]
  rw [if_pos ⟨Rat.den_natCast n, by omega, h⟩]

theorem asOptStr_optStrJson (o : Option String) :
    Json.asOptStr (optStrJson o) = some o := by
  cases o <;> rfl

theorem household_roundtrip (h : Household) (hid : h.id < 4294967296) :
    Household.fromJson h.toJson = some h := by
  have hu := asU32_roundtrip h.id hid
  obtain ⟨id, hn, ps, nrd, rt, auc, seg, lrd, rs, pf, am, cr, up⟩ := h
  dsimp only at hu
  have key : Household.fromJson
      (Household.toJson ⟨id, hn, ps, nrd, rt, auc, seg, lrd, rs, pf, am, cr, up⟩) =
      (Json.asU32 (Json.num id)).bind fun i =>
        (List.mapM.loop Person.fromJson (ps.map Person.toJson) []).bind fun ps2 =>
          (Json.asOptStr (optStrJson lrd)).bind fun lrd2 =>
            (Json.asOptStr (optStrJson am)).bind fun am2 =>
              some ⟨i, hn, ps2, nrd, rt, auc, seg, lrd2, rs, pf, am2, cr, up⟩ := rfl
  rw [key, hu, mapM_loop_persons, asOptStr_optStrJson, asOptStr_optStrJson]
  simp

theorem mapM_loop_households (l : List Household) (hid : ∀ h ∈ l, h.id < 4294967296)
    (acc : List Household) :
    List.mapM.loop Household.fromJson (l.map Household.toJson) acc = some (acc.reverse ++ l) := by
  induction l generalizing acc with
  | nil => simp [List.mapM.loop]
  | cons h t ih =>
    have h1 := household_roundtrip h (hid h (by simp))
    simp [List.mapM.loop, h1, ih fun x hx => hid x (by simp [hx])]

theorem households_roundtrip (l : List Household) (hid : ∀ h ∈ l, h.id < 4294967296) :
    (l.map Household.toJson).mapM Household.fromJson = some l := by
  show List.mapM.loop Household.fromJson (l.map Household.toJson) [] = some l
  simp [mapM_loop_households l hid]

theorem settings_roundtrip (s : AppSettings) (hbc : s.backup_count < 4294967296) :
    AppSettings.fromJson s.toJson = some s := by
  have hu := asU32_roundtrip s.backup_count hbc
  obtain ⟨lfp, th, ab, bc⟩ := s
  dsimp only at hu
  have key : AppSettings.fromJson (AppSettings.toJson ⟨lfp, th, ab, bc⟩) =
      (Json.asOptStr (optStrJson lfp)).bind fun l =>
        (Json.asU32 (Json.num bc)).bind fun b =>
          some ⟨l, th, ab, b⟩ := rfl
  rw [key, hu, asOptStr_optStrJson]
  simp

/-- Tree level of the codec round trip: converting a document to a
`Json` tree and back is the identity, for `u32` fields in range. -/
theorem appData_roundtrip (d : AppData)
    (hid : ∀ h ∈ d.households, h.id < 4294967296)
    (hbc : d.settings.backup_count < 4294967296) :
    AppData.fromJson (AppData.toJson d) = some d := by
  obtain ⟨hs, st, v⟩ := d
  have hl := mapM_loop_households hs (by simpa using hid) []
  have hst : AppSettings.fromJson st.toJson = some st :=
    settings_roundtrip st (by simpa using hbc)
  have key : AppData.fromJson (AppData.toJson ⟨hs, st, v⟩) =
      (List.mapM.loop Household.fromJson (hs.map Household.toJson) []).bind fun hs2 =>
        (AppSettings.fromJson st.toJson).bind fun st2 =>
          some ⟨hs2, st2, v⟩ := rfl
  rw [key, hl, hst]
  simp

theorem appData_roundtrip_witness :
    AppData.fromJson (AppData.toJson
      { households :=
          [{ id := 7, household_name := "Smith", persons := [{ name := "Ann", dob := "1990-01-02" }]
             next_review_due := "2024-06-01", review_type := "Required", auc := 87/100
             segment := "Green", last_review_date := some "2023-06-01"
             review_status := "Scheduled", priority_flag := "High"
             assigned_month := none, created := "2023-01-01", updated := "2024-01-01" }]
        settings :=
          { last_file_path := some "/data/house.json", theme := "dark"
            auto_backup := false, backup_count := 5 }
        version := "1.0.0" }) = some
      { households :=
          [{ id := 7, household_name := "Smith", persons := [{ name := "Ann", dob := "1990-01-02" }]
             next_review_due := "2024-06-01", review_type := "Required", auc := 87/100
             segment := "Green", last_review_date := some "2023-06-01"
             review_status := "Scheduled", priority_flag := "High"
             assigned_month := none, created := "2023-01-01", updated := "2024-01-01" }]
        settings :=
          { last_file_path := some "/data/house.json", theme := "dark"
            auto_backup := false, backup_count := 5 }
        version := "1.0.0" } :=
  appData_roundtrip _ (by decide) (by decide)

/-- Every `Json` tree the document serializer produces is printable: the
only numbers it contains are `u32` casts (denominator `1`) and the `auc`
scores, whose denominators divide a power of ten by hypothesis. -/
theorem printable_optStrJson (o : Option String) : Printable (optStrJson o) := by
  cases o <;> simp [optStrJson, Printable]

theorem printable_person (p : Person) : Printable (Person.toJson p) := by
  simp [Person.toJson, Printable, PrintableMembers]

theorem printable_persons (l : List Person) : PrintableItems (l.map Person.toJson) := by
  induction l with
  | nil => simp [PrintableItems]
  | cons p l ih =>
    simp only [List.map_cons, PrintableItems]
    exact ⟨printable_person p, ih⟩

theorem printable_household (h : Household) (hauc : h.auc.den ∣ 10 ^ 1100) :
    Printable (Household.toJson h) := by
  simp [Household.toJson, Printable, PrintableMembers, printable_persons,
    printable_optStrJson, hauc, Rat.den_natCast]

theorem printable_households (l : List Household) (hauc : ∀ h ∈ l, h.auc.den ∣ 10 ^ 1100) :
    PrintableItems (l.map Household.toJson) := by
  induction l with
  | nil => simp [PrintableItems]
  | cons h l ih =>
    simp only [List.map_cons, PrintableItems]
    exact ⟨printable_household h (hauc h (by simp)),
      ih fun h2 hm => hauc h2 (by simp [hm])⟩

theorem printable_settings (s : AppSettings) : Printable (AppSettings.toJson s) := by
  simp [AppSettings.toJson, Printable, PrintableMembers, printable_optStrJson,
    Rat.den_natCast]

theorem printable_toJson (d : AppData) (hauc : ∀ h ∈ d.households, h.auc.den ∣ 10 ^ 1100) :
    Printable (AppData.toJson d) := by
  simp [AppData.toJson, Printable, PrintableMembers, printable_settings,
    printable_households d.households hauc]

/-- `Json.parse` inverts `to_string_pretty` on printable trees. -/
theorem parse_to_string_pretty (j : Json) (hp : Printable j) :
    Json.parse (to_string_pretty j) = Except.ok j := by
  have hlen := jsonSize_le_render 0 j
  have h := (parse_render (2 * (renderPretty 0 j).length + 2)).1 0 j [] hp
    (by
      have hL : (renderPretty 0 j).length = ((renderPretty 0 j).data).length := rfl
      omega)
    trivial
  rw [List.append_nil] at h
  simp only [Json.parse, to_string_pretty]
  rw [h]
  rfl

/-- C3: the document codec round-trips through the JSON text layer:
`serde_json::from_str` applied to the `serde_json::to_string_pretty`
serialization of any document yields the document back, for field
values JSON can represent (`u32` fields in range; each `f64` score is
the exact decimal rational it denotes, i.e. its denominator divides a
power of ten). -/
theorem appData_text_roundtrip (d : AppData)
    (hid : ∀ h ∈ d.households, h.id < 4294967296)
    (hbc : d.settings.backup_count < 4294967296)
    (hauc : ∀ h ∈ d.households, h.auc.den ∣ 10 ^ 1100) :
    parseAppData (to_string_pretty (AppData.toJson d)) = Except.ok d := by
  simp only [parseAppData, parse_to_string_pretty (AppData.toJson d) (printable_toJson d hauc),
    appData_roundtrip d hid hbc]

set_option maxRecDepth 4000 in
theorem appData_text_roundtrip_witness :
    parseAppData (to_string_pretty (AppData.toJson
      { households :=
          [{ id := 7, household_name := "Smith", persons := [{ name := "Ann", dob := "1990-01-02" }]
             next_review_due := "2024-06-01", review_type := "Required", auc := ⟨87, 100, by decide, by decide⟩
             segment := "Green", last_review_date := some "2023-06-01"
             review_status := "Scheduled", priority_flag := "High"
             assigned_month := none, created := "2023-01-01", updated := "2024-01-01" }]
        settings :=
          { last_file_path := some "/data/house.json", theme := "dark"
            auto_backup := false, backup_count := 5 }
        version := "1.0.0" })) = Except.ok
      { households :=
          [{ id := 7, household_name := "Smith", persons := [{ name := "Ann", dob := "1990-01-02" }]
             next_review_due := "2024-06-01", review_type := "Required", auc := ⟨87, 100, by decide, by decide⟩
             segment := "Green", last_review_date := some "2023-06-01"
             review_status := "Scheduled", priority_flag := "High"
             assigned_month := none, created := "2023-01-01", updated := "2024-01-01" }]
        settings :=
          { last_file_path := some "/data/house.json", theme := "dark"
            auto_backup := false, backup_count := 5 }
        version := "1.0.0" } :=
  appData_text_roundtrip _ (by decide) (by decide) (by decide)

/-! ## C6 -/

/-- C6: `export_backup_list` of a missing directory is an empty list, not
an error; of a present directory it returns exactly the entries whose
name matches `\x7bstem\x7d_backup_*.json` and whose metadata reads
succeed (others are silently skipped), sorted by creation time
descending. -/
theorem export_backup_list_spec (d : Dir) (stem : String) :
    (d.present = false → export_backup_list d stem = Except.ok []) ∧
    (d.present = true →
      ∃ l, export_backup_list d stem = Except.ok l ∧
        l.Perm ((backupCandidates stem d.entries).map (Entry.toInfo d.path)) ∧
        l.Pairwise (fun a b : BackupInfo => b.created ≤ a.created)) := by
  constructor
  · intro h
    simp [export_backup_list, h]
  · intro h
    haveI : IsTotal BackupInfo infoNewerFirst := ⟨fun a b => Nat.le_total b.created a.created⟩
    haveI : IsTrans BackupInfo infoNewerFirst := ⟨fun _ _ _ hab hbc => Nat.le_trans hbc hab⟩
    refine ⟨((backupCandidates stem d.entries).map (Entry.toInfo d.path)).insertionSort
        infoNewerFirst, by simp [export_backup_list, h], List.perm_insertionSort _ _, ?_⟩
    exact List.sorted_insertionSort infoNewerFirst _

theorem export_backup_list_spec_witness :
    ∃ l, export_backup_list
        ⟨true, "/d",
          [⟨"house_backup_2024-01-01_00-00-00.json", 100, 10, true, true, true⟩,
           ⟨"house_backup_2024-02-02_00-00-00.json", 200, 20, true, true, true⟩,
           ⟨"house.json", 50, 5, true, true, true⟩]⟩ "house" = Except.ok l ∧
      l.Perm ((backupCandidates "house"
          [⟨"house_backup_2024-01-01_00-00-00.json", 100, 10, true, true, true⟩,
           ⟨"house_backup_2024-02-02_00-00-00.json", 200, 20, true, true, true⟩,
           ⟨"house.json", 50, 5, true, true, true⟩]).map (Entry.toInfo "/d")) ∧
      l.Pairwise (fun a b : BackupInfo => b.created ≤ a.created) :=
  (export_backup_list_spec
    ⟨true, "/d",
      [⟨"house_backup_2024-01-01_00-00-00.json", 100, 10, true, true, true⟩,
       ⟨"house_backup_2024-02-02_00-00-00.json", 200, 20, true, true, true⟩,
       ⟨"house.json", 50, 5, true, true, true⟩]⟩ "house").2 rfl

/-! ## C10 -/

theorem mem_backupCandidates {stem : String} {entries : List Entry} {e : Entry}
    (h : e ∈ backupCandidates stem entries) :
    e ∈ entries ∧ matchesBackup stem e.name = true ∧ e.metaReadable = true ∧
      e.createdReadable = true := by
  have h2 := List.mem_filter.mp h
  refine ⟨h2.1, ?_⟩
  simpa [and_assoc] using h2.2

/-- A name in the deletion list of `cleanup_old_backups` matches the
backup pattern. -/
theorem contains_name_matches {stem : String} {entries : List Entry} {k : Nat} {n : String}
    (h : ((((backupCandidates stem entries).insertionSort newerFirst).drop k).map
        Entry.name).contains n = true) :
    matchesBackup stem n = true := by
  rw [List.contains_iff_exists_mem_beq] at h
  obtain ⟨m, hm, hbeq⟩ := h
  obtain ⟨b, hb, rfl⟩ := List.mem_map.mp hm
  have hb2 : b ∈ (backupCandidates stem entries).insertionSort newerFirst :=
    List.drop_subset _ _ hb
  have hb3 : b ∈ backupCandidates stem entries :=
    (List.perm_insertionSort newerFirst _).mem_iff.mp hb2
  rw [eq_of_beq hbeq]
  exact (mem_backupCandidates hb3).2.1

theorem cleanup_status_ok (d : Dir) (stem : String) (k : Nat) :
    (cleanup_old_backups d stem k).1 = Except.ok () := by
  cases hp : d.present <;> simp [cleanup_old_backups, hp]

theorem cleanup_path_eq (d : Dir) (stem : String) (k : Nat) :
    (cleanup_old_backups d stem k).2.path = d.path := by
  cases hp : d.present <;> simp [cleanup_old_backups, hp]

theorem cleanup_entries_eq (d : Dir) (stem : String) (k : Nat) (hp : d.present = true) :
    (cleanup_old_backups d stem k).2.entries =
      d.entries.filter fun e =>
        !(((((backupCandidates stem d.entries).insertionSort newerFirst).drop k).map
            Entry.name).contains e.name && e.deletable) := by
  simp [cleanup_old_backups, hp]

theorem matchesBackup_base_file (stem : String) :
    matchesBackup stem (stem ++ ".json") = false := by
  have h : strStartsWith (stem ++ ".json") (stem ++ "_backup_") = false := by
    rw [Bool.eq_false_iff]
    intro hcon
    simp only [strStartsWith, String.data_append] at hcon
    rw [List.isPrefixOf_iff_prefix, List.prefix_append_right_inj] at hcon
    exact (by decide : ¬ ("_backup_".data <+: ".json".data)) hcon
  simp [matchesBackup, h]

/-- C10: `cleanup_old_backups` never removes or modifies an entry whose
name does not match `\x7bstem\x7d_backup_*.json`: the surviving entries
are a sublist of the original ones, the non-matching entries are exactly
the original non-matching entries, and in particular the base document
file `\x7bstem\x7d.json` is never deleted. -/
theorem cleanup_frame (d : Dir) (stem : String) (k : Nat) :
    (cleanup_old_backups d stem k).2.path = d.path ∧
    (cleanup_old_backups d stem k).2.entries.Sublist d.entries ∧
    ((cleanup_old_backups d stem k).2.entries.filter fun e =>
        !(matchesBackup stem e.name)) =
      (d.entries.filter fun e => !(matchesBackup stem e.name)) ∧
    (∀ e ∈ d.entries, matchesBackup stem e.name = false →
      e ∈ (cleanup_old_backups d stem k).2.entries) ∧
    (∀ e ∈ d.entries, e.name = stem ++ ".json" →
      e ∈ (cleanup_old_backups d stem k).2.entries) := by
  cases hp : d.present with
  | false =>
    have hres : cleanup_old_backups d stem k = (Except.ok (), d) := by
      simp [cleanup_old_backups, hp]
    rw [hres]
    exact ⟨rfl, List.Sublist.refl _, rfl, fun e he _ => he, fun e he _ => he⟩
  | true =>
    have he := cleanup_entries_eq d stem k hp
    have hkeep : ∀ e : Entry, matchesBackup stem e.name = false →
        (!(((((backupCandidates stem d.entries).insertionSort newerFirst).drop k).map
            Entry.name).contains e.name && e.deletable)) = true := by
      intro e hm
      cases hc : ((((backupCandidates stem d.entries).insertionSort newerFirst).drop k).map
          Entry.name).contains e.name with
      | false => simp [hc]
      | true => rw [contains_name_matches hc] at hm; cases hm
    have hmem : ∀ e ∈ d.entries, matchesBackup stem e.name = false →
        e ∈ (cleanup_old_backups d stem k).2.entries := by
      intro e hin hm
      rw [he]
      exact List.mem_filter.mpr ⟨hin, hkeep e hm⟩
    refine ⟨cleanup_path_eq d stem k, ?_, ?_, hmem, ?_⟩
    · rw [he]
      exact List.filter_sublist _
    · rw [he, List.filter_filter]
      apply List.filter_congr
      intro e _
      cases hm : matchesBackup stem e.name with
      | false => rw [hkeep e hm]; rfl
      | true => rfl
    · intro e hin hname
      exact hmem e hin (by rw [hname]; exact matchesBackup_base_file stem)

theorem cleanup_frame_witness :
    (cleanup_old_backups
        ⟨true, "/d",
          [⟨"house_backup_2024-01-01_00-00-00.json", 100, 10, true, true, true⟩,
           ⟨"house.json", 50, 5, true, true, true⟩]⟩ "house" 0).2.entries.Sublist
      [⟨"house_backup_2024-01-01_00-00-00.json", 100, 10, true, true, true⟩,
       ⟨"house.json", 50, 5, true, true, true⟩] ∧
    (⟨"house.json", 50, 5, true, true, true⟩ : Entry) ∈
      (cleanup_old_backups
        ⟨true, "/d",
          [⟨"house_backup_2024-01-01_00-00-00.json", 100, 10, true, true, true⟩,
           ⟨"house.json", 50, 5, true, true, true⟩]⟩ "house" 0).2.entries :=
  ⟨(cleanup_frame
      ⟨true, "/d",
        [⟨"house_backup_2024-01-01_00-00-00.json", 100, 10, true, true, true⟩,
         ⟨"house.json", 50, 5, true, true, true⟩]⟩ "house" 0).2.1,
   (cleanup_frame
      ⟨true, "/d",
        [⟨"house_backup_2024-01-01_00-00-00.json", 100, 10, true, true, true⟩,
         ⟨"house.json", 50, 5, true, true, true⟩]⟩ "house" 0).2.2.2.2
     ⟨"house.json", 50, 5, true, true, true⟩ (by simp) rfl⟩

/-! ## C1 -/

/-- C1: `cleanup_old_backups` always returns success; and when the
directory holds `N` readable, deletable snapshots for the stem with
distinct creation times and `k < N`, it removes exactly the `N - k`
oldest ones (every removed snapshot is strictly older than every kept
one) and leaves the `k` newest — and everything else — in place. -/
theorem cleanup_prunes_oldest (d : Dir) (stem : String) (k : Nat) :
    (cleanup_old_backups d stem k).1 = Except.ok () ∧
    (d.present = true →
     (d.entries.map Entry.name).Nodup →
     (∀ e ∈ d.entries, matchesBackup stem e.name = true →
        e.metaReadable = true ∧ e.createdReadable = true ∧ e.deletable = true) →
     ((d.entries.filter fun e => matchesBackup stem e.name).map Entry.created).Nodup →
     k < (d.entries.filter fun e => matchesBackup stem e.name).length →
     ∃ newer older,
       (d.entries.filter fun e => matchesBackup stem e.name).Perm (newer ++ older) ∧
       newer.length = k ∧
       older.length = (d.entries.filter fun e => matchesBackup stem e.name).length - k ∧
       (∀ a ∈ newer, ∀ b ∈ older, b.created < a.created) ∧
       (cleanup_old_backups d stem k).2.entries =
         d.entries.filter (fun e => !((older.map Entry.name).contains e.name)) ∧
       (∀ a ∈ newer, a ∈ (cleanup_old_backups d stem k).2.entries)) := by
  refine ⟨cleanup_status_ok d stem k, ?_⟩
  intro hpres hnames hflags hdist hk
  haveI : IsTotal Entry newerFirst := ⟨fun a b => Nat.le_total b.created a.created⟩
  haveI : IsTrans Entry newerFirst := ⟨fun _ _ _ hab hbc => Nat.le_trans hbc hab⟩
  set B := d.entries.filter (fun e => matchesBackup stem e.name) with hB
  have hcand : backupCandidates stem d.entries = B := by
    apply List.filter_congr
    intro e he
    cases hm : matchesBackup stem e.name with
    | true =>
      obtain ⟨h1, h2, _⟩ := hflags e he hm
      rw [h1, h2]
      rfl
    | false => rfl
  set sorted := B.insertionSort newerFirst with hsorted_def
  have hperm : sorted.Perm B := List.perm_insertionSort newerFirst B
  have hsorted : sorted.Pairwise newerFirst := List.sorted_insertionSort newerFirst B
  have hlen : sorted.length = B.length := hperm.length_eq
  have hstrict : ∀ a ∈ sorted.take k, ∀ b ∈ sorted.drop k, b.created < a.created := by
    have hpa := (List.pairwise_append.mp
      (show ((sorted.take k) ++ (sorted.drop k)).Pairwise newerFirst by
        rw [List.take_append_drop]; exact hsorted)).2.2
    have hnodupC : (sorted.map Entry.created).Nodup :=
      ((hperm.map Entry.created).nodup_iff).mpr hdist
    have hsplit : sorted.map Entry.created =
        (sorted.take k).map Entry.created ++ (sorted.drop k).map Entry.created := by
      rw [← List.map_append, List.take_append_drop]
    rw [hsplit] at hnodupC
    have hdisj := (List.nodup_append.mp hnodupC).2.2
    intro a ha b hb
    have hle : b.created ≤ a.created := hpa a ha b hb
    have hne : a.created ≠ b.created := fun heq =>
      hdisj (List.mem_map_of_mem Entry.created ha)
        (heq.symm ▸ List.mem_map_of_mem Entry.created hb)
    exact lt_of_le_of_ne hle fun h2 => hne h2.symm
  have hentries : (cleanup_old_backups d stem k).2.entries =
      d.entries.filter (fun e => !(((sorted.drop k).map Entry.name).contains e.name)) := by
    rw [cleanup_entries_eq d stem k hpres, hcand]
    apply List.filter_congr
    intro e he
    cases hc : ((sorted.drop k).map Entry.name).contains e.name with
    | false => rfl
    | true =>
      have hdel : e.deletable = true := by
        rw [List.contains_iff_exists_mem_beq] at hc
        obtain ⟨nm, hnm, hbeq⟩ := hc
        obtain ⟨b, hbdrop, rfl⟩ := List.mem_map.mp hnm
        have hbB : b ∈ B := hperm.subset (List.drop_subset _ _ hbdrop)
        have hbE : b ∈ d.entries := List.mem_of_mem_filter hbB
        have heqb : e = b := List.inj_on_of_nodup_map hnames he hbE (eq_of_beq hbeq)
        rw [heqb]
        have hmb : matchesBackup stem b.name = true := by
          have h3 := (List.mem_filter.mp hbB).2
          simpa using h3
        exact (hflags b hbE hmb).2.2
      rw [hdel]
      rfl
  refine ⟨sorted.take k, sorted.drop k, ?_, ?_, ?_, hstrict, hentries, ?_⟩
  · rw [List.take_append_drop]
    exact hperm.symm
  · rw [List.length_take, hlen]
    omega
  · rw [List.length_drop, hlen]
  · intro a ha
    have haE : a ∈ d.entries := List.mem_of_mem_filter (hperm.subset (List.take_subset _ _ ha))
    rw [hentries]
    refine List.mem_filter.mpr ⟨haE, ?_⟩
    cases hc : ((sorted.drop k).map Entry.name).contains a.name with
    | false => rfl
    | true =>
      exfalso
      rw [List.contains_iff_exists_mem_beq] at hc
      obtain ⟨nm, hnm, hbeq⟩ := hc
      obtain ⟨b, hbdrop, rfl⟩ := List.mem_map.mp hnm
      have hbE : b ∈ d.entries :=
        List.mem_of_mem_filter (hperm.subset (List.drop_subset _ _ hbdrop))
      have heqb : a = b := List.inj_on_of_nodup_map hnames haE hbE (eq_of_beq hbeq)
      exact absurd (heqb ▸ hstrict a ha b hbdrop) (lt_irrefl _)

theorem cleanup_prunes_oldest_witness :
    (cleanup_old_backups
        ⟨true, "/d",
          [⟨"house_backup_2024-03-03_00-00-00.json", 300, 10, true, true, true⟩,
           ⟨"house_backup_2024-01-01_00-00-00.json", 100, 10, true, true, true⟩,
           ⟨"house_backup_2024-02-02_00-00-00.json", 200, 10, true, true, true⟩,
           ⟨"house.json", 50, 5, true, true, true⟩]⟩ "house" 1).1 = Except.ok () ∧
    (∃ newer older,
      (([⟨"house_backup_2024-03-03_00-00-00.json", 300, 10, true, true, true⟩,
         ⟨"house_backup_2024-01-01_00-00-00.json", 100, 10, true, true, true⟩,
         ⟨"house_backup_2024-02-02_00-00-00.json", 200, 10, true, true, true⟩,
         ⟨"house.json", 50, 5, true, true, true⟩] : List Entry).filter fun e =>
          matchesBackup "house" e.name).Perm (newer ++ older) ∧
      newer.length = 1 ∧
      older.length = (([⟨"house_backup_2024-03-03_00-00-00.json", 300, 10, true, true, true⟩,
         ⟨"house_backup_2024-01-01_00-00-00.json", 100, 10, true, true, true⟩,
         ⟨"house_backup_2024-02-02_00-00-00.json", 200, 10, true, true, true⟩,
         ⟨"house.json", 50, 5, true, true, true⟩] : List Entry).filter fun e =>
          matchesBackup "house" e.name).length - 1 ∧
      (∀ a ∈ newer, ∀ b ∈ older, b.created < a.created) ∧
      (cleanup_old_backups
        ⟨true, "/d",
          [⟨"house_backup_2024-03-03_00-00-00.json", 300, 10, true, true, true⟩,
           ⟨"house_backup_2024-01-01_00-00-00.json", 100, 10, true, true, true⟩,
           ⟨"house_backup_2024-02-02_00-00-00.json", 200, 10, true, true, true⟩,
           ⟨"house.json", 50, 5, true, true, true⟩]⟩ "house" 1).2.entries =
        ([⟨"house_backup_2024-03-03_00-00-00.json", 300, 10, true, true, true⟩,
          ⟨"house_backup_2024-01-01_00-00-00.json", 100, 10, true, true, true⟩,
          ⟨"house_backup_2024-02-02_00-00-00.json", 200, 10, true, true, true⟩,
          ⟨"house.json", 50, 5, true, true, true⟩] : List Entry).filter
          (fun e => !((older.map Entry.name).contains e.name)) ∧
      (∀ a ∈ newer, a ∈ (cleanup_old_backups
        ⟨true, "/d",
          [⟨"house_backup_2024-03-03_00-00-00.json", 300, 10, true, true, true⟩,
           ⟨"house_backup_2024-01-01_00-00-00.json", 100, 10, true, true, true⟩,
           ⟨"house_backup_2024-02-02_00-00-00.json", 200, 10, true, true, true⟩,
           ⟨"house.json", 50, 5, true, true, true⟩]⟩ "house" 1).2.entries)) :=
  ⟨(cleanup_prunes_oldest
      ⟨true, "/d",
        [⟨"house_backup_2024-03-03_00-00-00.json", 300, 10, true, true, true⟩,
         ⟨"house_backup_2024-01-01_00-00-00.json", 100, 10, true, true, true⟩,
         ⟨"house_backup_2024-02-02_00-00-00.json", 200, 10, true, true, true⟩,
         ⟨"house.json", 50, 5, true, true, true⟩]⟩ "house" 1).1,
   (cleanup_prunes_oldest
      ⟨true, "/d",
        [⟨"house_backup_2024-03-03_00-00-00.json", 300, 10, true, true, true⟩,
         ⟨"house_backup_2024-01-01_00-00-00.json", 100, 10, true, true, true⟩,
         ⟨"house_backup_2024-02-02_00-00-00.json", 200, 10, true, true, true⟩,
         ⟨"house.json", 50, 5, true, true, true⟩]⟩ "house" 1).2 rfl (by decide)
     (by decide) (by decide) (by decide)⟩

end FRD
